import Mathlib

/-!
# Verification of the merge-conflict resolution engine

Shallow embedding of the conflict-resolution core of the `gui-git-editor`
repository:

* the merge store (`src/src/stores` — the variant with `revertConflict` and
  `resolvedReplacements`): `resolveConflictInContent`, `checkAllResolved`,
  `acceptLocal`, `acceptRemote`, `acceptBoth`, `revertConflict`,
  `updateMergedContent`, `goToNextConflict`, `goToPrevConflict`,
  `reloadMergedFile`, `initMerge`, `reParseAndPreserveResolved`;
* the decoration range locator
  (`src/src/components/merge/useConflictDecorations.ts`):
  `findReplacementLineRange` and the forward-cursor loop over resolved
  conflicts;
* the conflict parser, which lives in the Tauri backend (invoked through
  `ipc.parseConflicts`) and is not part of the front-end sources; it is
  modelled from the spec (see `parseConflicts`).

JavaScript strings are modelled as Lean `String`s (a list of characters);
`split("\n")` / `join("\n")` are modelled by the executable functions
`splitLines` / `joinLines` below, which implement exactly the JavaScript
semantics for the one-character separator `"\n"` (in particular
`"".split("\n") = [""]` and `[].join("\n") = ""`).
-/

namespace MergeEngine

/-! ## Line splitting and joining (JS `split("\n")` / `join("\n")`) -/

/-- Split a character list at every newline character.  Mirrors the JS
`String.prototype.split("\n")` semantics on the character level: the result
is always non-empty, and splitting the empty list yields `[[]]`. -/
def splitNL : List Char → List (List Char)
  | [] => [[]]
  | c :: cs =>
    if c = '\n' then [] :: splitNL cs
    else
      match splitNL cs with
      | [] => [[c]]
      | l :: ls => (c :: l) :: ls

/-- Join character lists with newline characters.  Mirrors the JS
`Array.prototype.join("\n")` semantics on the character level. -/
def joinNL : List (List Char) → List Char
  | [] => []
  | [l] => l
  | l :: ls => l ++ '\n' :: joinNL ls

theorem splitNL_ne_nil (cs : List Char) : splitNL cs ≠ [] := by
  cases cs with
  | nil => simp [splitNL]
  | cons c cs =>
    simp only [splitNL]
    split
    · simp
    · cases h : splitNL cs <;> simp

theorem joinNL_cons (a : List Char) (ls : List (List Char)) :
    joinNL (a :: ls) = a ++ (if ls = [] then [] else '\n' :: joinNL ls) := by
  cases ls with
  | nil => simp [joinNL]
  | cons b ls => simp [joinNL]

theorem joinNL_splitNL (cs : List Char) : joinNL (splitNL cs) = cs := by
  induction cs with
  | nil => simp [splitNL, joinNL]
  | cons c cs ih =>
    simp only [splitNL]
    split
    · rename_i hc
      rw [joinNL_cons, if_neg (splitNL_ne_nil cs), ih, hc]
      simp
    · cases h : splitNL cs with
      | nil => exact absurd h (splitNL_ne_nil cs)
      | cons l ls =>
        rw [h] at ih
        rw [joinNL_cons] at ih ⊢
        simp only [List.cons_append]
        rw [ih]

theorem splitNL_append (a b : List Char) :
    splitNL (a ++ '\n' :: b) = splitNL a ++ splitNL b := by
  induction a with
  | nil => simp [splitNL]
  | cons c a ih =>
    simp only [List.cons_append, splitNL]
    split
    · simp [ih]
    · simp only [List.append_eq] at *
      rw [ih]
      cases h : splitNL a with
      | nil => exact absurd h (splitNL_ne_nil a)
      | cons l ls => simp

theorem splitNL_of_not_mem (cs : List Char) (h : '\n' ∉ cs) :
    splitNL cs = [cs] := by
  induction cs with
  | nil => simp [splitNL]
  | cons c cs ih =>
    rw [List.mem_cons, not_or] at h
    have hc : ¬ c = '\n' := fun hh => h.1 hh.symm
    simp only [splitNL, if_neg hc, ih h.2]

theorem not_mem_of_mem_splitNL (cs : List Char) (l : List Char)
    (h : l ∈ splitNL cs) : '\n' ∉ l := by
  induction cs generalizing l with
  | nil =>
    simp [splitNL] at h
    simp [h]
  | cons c cs ih =>
    simp only [splitNL] at h
    split at h
    · rcases List.mem_cons.1 h with h | h
      · simp [h]
      · exact ih l h
    · rename_i hc
      cases hsp : splitNL cs with
      | nil => exact absurd hsp (splitNL_ne_nil cs)
      | cons m ms =>
        rw [hsp] at h
        rcases List.mem_cons.1 h with h | h
        · subst h
          intro hmem
          rcases List.mem_cons.1 hmem with h | h
          · exact hc h.symm
          · exact ih m (hsp ▸ List.mem_cons_self m ms) h
        · exact ih l (hsp ▸ List.mem_cons.2 (Or.inr h))

theorem splitNL_joinNL (ls : List (List Char)) (hne : ls ≠ [])
    (hnl : ∀ l ∈ ls, '\n' ∉ l) : splitNL (joinNL ls) = ls := by
  induction ls with
  | nil => exact absurd rfl hne
  | cons a ls ih =>
    cases ls with
    | nil =>
      simp only [joinNL]
      exact splitNL_of_not_mem a (hnl a (List.mem_cons_self a []))
    | cons b ls =>
      rw [joinNL_cons, if_neg (by simp)]
      rw [splitNL_append, splitNL_of_not_mem a (hnl a (by simp))]
      rw [ih (by simp) (fun l hl => hnl l (List.mem_cons.2 (Or.inr hl)))]
      simp

/-- `splitLines s` models the JS expression `s.split("\n")`. -/
def splitLines (s : String) : List String :=
  (splitNL s.data).map String.mk

/-- `joinLines ls` models the JS expression `ls.join("\n")`. -/
def joinLines (ls : List String) : String :=
  String.mk (joinNL (ls.map String.data))

/-- A string with no newline character in it (a single "line"). -/
def lineNoNL (s : String) : Prop := '\n' ∉ s.data

instance (s : String) : Decidable (lineNoNL s) := by
  unfold lineNoNL
  infer_instance

theorem splitLines_ne_nil (s : String) : splitLines s ≠ [] := by
  simp only [splitLines, ne_eq, List.map_eq_nil_iff]
  exact splitNL_ne_nil s.data

theorem joinLines_splitLines (s : String) : joinLines (splitLines s) = s := by
  apply String.ext
  simp only [joinLines, splitLines, List.map_map]
  have : (String.data ∘ String.mk) = id := by
    funext l
    rfl
  rw [this, List.map_id, joinNL_splitNL]

theorem splitLines_joinLines (ls : List String) (hne : ls ≠ [])
    (hnl : ∀ l ∈ ls, lineNoNL l) : splitLines (joinLines ls) = ls := by
  simp only [splitLines, joinLines]
  rw [splitNL_joinNL (ls.map String.data)
    (by simpa using hne)
    (by
      intro l hl
      rcases List.mem_map.1 hl with ⟨t, ht, rfl⟩
      exact hnl t ht)]
  rw [List.map_map]
  have : (String.mk ∘ String.data) = id := by
    funext t
    rfl
  rw [this, List.map_id]

theorem splitLines_append_newline (a b : String) :
    splitLines (a ++ "\n" ++ b) = splitLines a ++ splitLines b := by
  simp only [splitLines, String.data_append]
  rw [List.append_assoc]
  simp only [List.cons_append, List.nil_append]
  rw [splitNL_append, List.map_append]

theorem lineNoNL_of_mem_splitLines (s : String) (l : String)
    (h : l ∈ splitLines s) : lineNoNL l := by
  simp only [splitLines, List.mem_map] at h
  rcases h with ⟨cs, hcs, rfl⟩
  exact not_mem_of_mem_splitNL s.data cs hcs

theorem splitLines_of_lineNoNL (s : String) (h : lineNoNL s) :
    splitLines s = [s] := by
  simp only [splitLines, splitNL_of_not_mem s.data h, List.map_cons,
    List.map_nil]

/-! ## Data model (`ConflictRegion`, merge store state) -/

/-- `ConflictRegion` from `src/src/types` (`types/git`): one parsed conflict
marker block.  Line numbers are 0-based; `startLine`/`endLine` cover the whole
block from the opening to the closing marker line, inclusive. -/
structure ConflictRegion where
  id : Nat
  startLine : Nat
  localStartLine : Nat
  localEndLine : Nat
  baseStartLine : Option Nat
  baseEndLine : Option Nat
  remoteStartLine : Nat
  remoteEndLine : Nat
  endLine : Nat
  localContent : String
  baseContent : Option String
  remoteContent : String
  resolved : Bool
deriving DecidableEq

instance : Inhabited ConflictRegion :=
  ⟨⟨0, 0, 0, 0, none, none, 0, 0, 0, "", none, "", false⟩⟩

/-- The merge store state (the fields of `MergeState` that the conflict
engine reads or writes; pure UI bookkeeping such as `isLoading`, `isSaving`,
`error` and `codexAvailable` is set only on I/O paths that are external to
this model).  `resolvedReplacements : Record<number, string>` is modelled as
an association list with at most one entry per key (see `rrGet`, `rrSet`,
`rrRemove`). -/
structure MergeState where
  localContent : Option String
  remoteContent : Option String
  baseContent : Option String
  mergedContent : Option String
  mergedPath : Option String
  language : String
  localLabel : String
  remoteLabel : String
  conflicts : List ConflictRegion
  currentConflictIndex : Nat
  allResolved : Bool
  isDirty : Bool
  resolvedReplacements : List (Nat × String)
deriving DecidableEq

/-- `initialState` from the merge store. -/
def initialState : MergeState where
  localContent := none
  remoteContent := none
  baseContent := none
  mergedContent := none
  mergedPath := none
  language := "plaintext"
  localLabel := "LOCAL"
  remoteLabel := "REMOTE"
  conflicts := []
  currentConflictIndex := 0
  allResolved := false
  isDirty := false
  resolvedReplacements := []

/-- JS `resolvedReplacements[conflictId]` (an `undefined` result is `none`). -/
def rrGet (rr : List (Nat × String)) (id : Nat) : Option String :=
  (rr.find? (fun e => e.1 == id)).map (·.2)

/-- JS spread update `{ ...resolvedReplacements, [conflictId]: replacement }`:
overwrites the entry for `id` if present, otherwise adds it. -/
def rrSet (rr : List (Nat × String)) (id : Nat) (v : String) :
    List (Nat × String) :=
  rr.filter (fun e => e.1 != id) ++ [(id, v)]

/-- JS rest destructuring `const { [conflictId]: _, ...rest }`:
removes the entry for `id`. -/
def rrRemove (rr : List (Nat × String)) (id : Nat) : List (Nat × String) :=
  rr.filter (fun e => e.1 != id)

/-! ## Merge store operations -/

/-- `resolveConflictInContent` (merge store): replace the conflict's
`[startLine, endLine]` line span by the replacement text.  The JS guard
`replacement ? replacement.split("\n") : []` treats the empty string as
falsy, hence the explicit test. -/
def resolveConflictInContent (content : String) (conflict : ConflictRegion)
    (replacement : String) : String :=
  let lines := splitLines content
  let before := lines.take conflict.startLine
  let after := lines.drop (conflict.endLine + 1)
  let replacementLines := if replacement = "" then [] else splitLines replacement
  joinLines (before ++ replacementLines ++ after)

/-- `checkAllResolved` (merge store). -/
def checkAllResolved (conflicts : List ConflictRegion) : Bool :=
  decide (conflicts.length > 0) && conflicts.all (·.resolved)

/-- `reParseAndPreserveResolved` (merge store): despite its name it does not
re-parse; it only marks the conflict with the given id as resolved and keeps
every other region (including its now-stale line numbers) unchanged. -/
def reParseAndPreserveResolved (_newContent : String)
    (oldConflicts : List ConflictRegion) (resolvedId : Nat) :
    List ConflictRegion :=
  oldConflicts.map (fun c =>
    if c.id == resolvedId then { c with resolved := true } else c)

/-- Common body of `acceptLocal` / `acceptRemote` / `acceptBoth`.  The source
spells this body out three times; the only difference between the three
actions is the expression computing `replacement` from the found conflict,
passed here as `chooseReplacement`.  The JS guard `if (!mergedContent)
return` treats both `null` and the empty string as falsy. -/
def acceptConflict (s : MergeState) (conflictId : Nat)
    (chooseReplacement : ConflictRegion → String) : MergeState :=
  match s.mergedContent with
  | none => s
  | some mergedContent =>
    if mergedContent = "" then s
    else
      match s.conflicts.find? (fun c => c.id == conflictId) with
      | none => s
      | some conflict =>
        if conflict.resolved then s
        else
          let replacement := chooseReplacement conflict
          let newContent :=
            resolveConflictInContent mergedContent conflict replacement
          let updatedConflicts :=
            reParseAndPreserveResolved newContent s.conflicts conflictId
          { s with
            mergedContent := some newContent
            conflicts := updatedConflicts
            allResolved := checkAllResolved updatedConflicts
            isDirty := true
            resolvedReplacements :=
              rrSet s.resolvedReplacements conflictId replacement }

/-- `acceptLocal` (merge store): the replacement is the LOCAL side. -/
def acceptLocal (s : MergeState) (conflictId : Nat) : MergeState :=
  acceptConflict s conflictId (fun conflict => conflict.localContent)

/-- `acceptRemote` (merge store): the replacement is the REMOTE side. -/
def acceptRemote (s : MergeState) (conflictId : Nat) : MergeState :=
  acceptConflict s conflictId (fun conflict => conflict.remoteContent)

/-- `acceptBoth` (merge store): the replacement is LOCAL then REMOTE,
newline-joined, each side dropped when it is the empty string. -/
def acceptBoth (s : MergeState) (conflictId : Nat) : MergeState :=
  acceptConflict s conflictId (fun conflict =>
    joinLines (([conflict.localContent, conflict.remoteContent]).filter
      (fun c => c.length > 0)))

/-- The reconstructed two-way marker text used by `revertConflict`. -/
def revertMarkerText (conflict : ConflictRegion) : String :=
  "<<<<<<< LOCAL\n" ++ conflict.localContent ++ "\n=======\n" ++
    conflict.remoteContent ++ "\n>>>>>>> REMOTE"

/-- `matchesAt content pat i` is the inner loop of the line-run searches in
`revertConflict` and `findReplacementLineRange`: do the lines of `content`
starting at index `i` begin with the line sequence `pat`? -/
def matchesAt (content pat : List String) (i : Nat) : Bool :=
  decide ((content.drop i).take pat.length = pat)

/-- The forward line-run search loop `for (let i = searchFrom; i <=
contentLines.length - replacementLines.length; i++)`: first index `i ≥
searchFrom` at which `pat` occurs as a run in `content`, or `none`.  The
explicit length guard reproduces the JS behaviour when the pattern is longer
than the content (a negative loop bound: the loop body never runs). -/
def findRunFrom (content pat : List String) (searchFrom : Nat) : Option Nat :=
  if content.length < pat.length then none
  else
    (List.range' searchFrom (content.length - pat.length + 1 - searchFrom)).find?
      (matchesAt content pat)

/-- `revertConflict` (merge store). -/
def revertConflict (s : MergeState) (conflictId : Nat) : MergeState :=
  match s.mergedContent with
  | none => s
  | some mergedContent =>
    if mergedContent = "" then s
    else
      match s.conflicts.find? (fun c => c.id == conflictId) with
      | none => s
      | some conflict =>
        if !conflict.resolved then s
        else
          match rrGet s.resolvedReplacements conflictId with
          | none => s
          | some replacement =>
            let markerText := revertMarkerText conflict
            let replacementLines := splitLines replacement
            let markerLines := splitLines markerText
            let contentLines := splitLines mergedContent
            match findRunFrom contentLines replacementLines 0 with
            | none => s
            | some i =>
              let newContent := joinLines (contentLines.take i ++ markerLines ++
                contentLines.drop (i + replacementLines.length))
              let updatedConflicts := s.conflicts.map (fun c =>
                if c.id == conflictId then { c with resolved := false } else c)
              { s with
                mergedContent := some newContent
                conflicts := updatedConflicts
                resolvedReplacements := rrRemove s.resolvedReplacements conflictId
                allResolved := checkAllResolved updatedConflicts
                isDirty := true }

/-- `updateMergedContent` (merge store). -/
def updateMergedContent (s : MergeState) (content : String) : MergeState :=
  { s with mergedContent := some content, isDirty := true }

/-- `goToNextConflict` (merge store).  Returns the updated state together
with the returned value (`some startLine` or `null`).  JS numbers are signed,
hence the `-1` sentinel lives in `Int`. -/
def goToNextConflict (s : MergeState) : MergeState × Option Nat :=
  let unresolvedIndices :=
    (s.conflicts.mapIdx (fun i c =>
      if !c.resolved then (i : Int) else -1)).filter (fun i => 0 ≤ i)
  match unresolvedIndices with
  | [] => (s, none)
  | u0 :: _ =>
    let nextIndex :=
      unresolvedIndices.find? (fun i => (s.currentConflictIndex : Int) < i)
    let targetIndex := (nextIndex.getD u0).toNat
    match s.conflicts[targetIndex]? with
    | none => (s, none)
    | some c => ({ s with currentConflictIndex := targetIndex }, some c.startLine)

/-- `goToPrevConflict` (merge store). -/
def goToPrevConflict (s : MergeState) : MergeState × Option Nat :=
  let unresolvedIndices :=
    (s.conflicts.mapIdx (fun i c =>
      if !c.resolved then (i : Int) else -1)).filter (fun i => 0 ≤ i)
  match unresolvedIndices with
  | [] => (s, none)
  | u0 :: us =>
    let prevIndex :=
      (unresolvedIndices.reverse).find? (fun i => i < (s.currentConflictIndex : Int))
    let targetIndex := (prevIndex.getD ((u0 :: us).getLast (by simp))).toNat
    match s.conflicts[targetIndex]? with
    | none => (s, none)
    | some c => ({ s with currentConflictIndex := targetIndex }, some c.startLine)

/-! ## The conflict parser (backend, modelled from the spec) -/

/-- Result of `parse_conflicts` (`ParseConflictsResult` in `types/git`). -/
structure ParseConflictsResult where
  conflicts : List ConflictRegion
  hasConflicts : Bool
  totalConflicts : Nat
deriving DecidableEq

/-- Does `s` start with `pre`?  (`String.startsWith`, stated over the
character lists so that it is kernel-reducible.) -/
def strStartsWith (s pre : String) : Bool :=
  decide (s.data.take pre.data.length = pre.data)

/-- Opening marker line: a run of `<` followed by a display label. -/
def isOpenMarker (l : String) : Bool := strStartsWith l "<<<<<<<"

/-- Base separator line (three-way style): a run of `|`. -/
def isBaseMarker (l : String) : Bool := strStartsWith l "|||||||"

/-- Side separator line: a run of `=`. -/
def isSepMarker (l : String) : Bool := strStartsWith l "======="

/-- Closing marker line: a run of `>` followed by a display label. -/
def isCloseMarker (l : String) : Bool := strStartsWith l ">>>>>>>"

/-- Which section of an open conflict block the scan is currently in. -/
inductive ScanPhase where
  | inLocal
  | inBase
  | inRemote
deriving DecidableEq

/-- Accumulated data of a conflict block whose closing marker has not been
seen yet. -/
structure OpenBlock where
  startLine : Nat
  localLines : List String
  baseMarkerLine : Option Nat
  baseLines : List String
  remoteLines : List String
  phase : ScanPhase
deriving DecidableEq

/-- Build the `ConflictRegion` for a block closed at line `closeIdx`.
Line-span fields follow the conventions the front end relies on
(`useConflictDecorations`): `localStartLine` is the first LOCAL content line,
`localEndLine` the line after the last one (the separator or base-marker
line), and symmetrically for the base and remote sides. -/
def mkRegion (id : Nat) (p : OpenBlock) (closeIdx : Nat) : ConflictRegion where
  id := id
  startLine := p.startLine
  localStartLine := p.startLine + 1
  localEndLine := p.startLine + 1 + p.localLines.length
  baseStartLine := p.baseMarkerLine.map (· + 1)
  baseEndLine := p.baseMarkerLine.map (· + 1 + p.baseLines.length)
  remoteStartLine := closeIdx - p.remoteLines.length
  remoteEndLine := closeIdx
  endLine := closeIdx
  localContent := joinLines p.localLines
  baseContent := p.baseMarkerLine.map (fun _ => joinLines p.baseLines)
  remoteContent := joinLines p.remoteLines
  resolved := false

/-- Modelled from the spec: the scanning loop of the backend `parse_conflicts`
command (`ConflictParser`, spec §4.1), which is not part of the front-end
sources.  Scans lines sequentially; an opening marker starts a block, an
optional base separator and a mandatory separator switch sides, a closing
marker emits a region.  An opening marker inside an open block (nesting), a
separator out of place, or an unterminated block at end of file is a hard
failure producing no partial region list. -/
def parseLoop : List String → Nat → Option OpenBlock → List ConflictRegion →
    Except String (List ConflictRegion)
  | [], _, some _, _ => .error "unterminated conflict marker block"
  | [], _, none, acc => .ok acc
  | l :: rest, idx, none, acc =>
    if isOpenMarker l then
      parseLoop rest (idx + 1) (some ⟨idx, [], none, [], [], .inLocal⟩) acc
    else
      parseLoop rest (idx + 1) none acc
  | l :: rest, idx, some p, acc =>
    if isOpenMarker l then .error "nested conflict marker"
    else
      match p.phase with
      | .inLocal =>
        if isBaseMarker l then
          parseLoop rest (idx + 1)
            (some { p with baseMarkerLine := some idx, phase := .inBase }) acc
        else if isSepMarker l then
          parseLoop rest (idx + 1) (some { p with phase := .inRemote }) acc
        else if isCloseMarker l then .error "closing marker before separator"
        else
          parseLoop rest (idx + 1)
            (some { p with localLines := p.localLines ++ [l] }) acc
      | .inBase =>
        if isSepMarker l then
          parseLoop rest (idx + 1) (some { p with phase := .inRemote }) acc
        else if isBaseMarker l then .error "duplicate base separator"
        else if isCloseMarker l then .error "closing marker before separator"
        else
          parseLoop rest (idx + 1)
            (some { p with baseLines := p.baseLines ++ [l] }) acc
      | .inRemote =>
        if isCloseMarker l then
          parseLoop rest (idx + 1) none (acc ++ [mkRegion acc.length p idx])
        else if isSepMarker l then .error "duplicate separator"
        else if isBaseMarker l then .error "base separator after separator"
        else
          parseLoop rest (idx + 1)
            (some { p with remoteLines := p.remoteLines ++ [l] }) acc

/-- Modelled from the spec: `parse_conflicts` — split the content into lines
and scan them; `totalConflicts` always equals `conflicts.length`, and a file
with zero markers yields `hasConflicts = false` with an empty list. -/
def parseConflicts (content : String) : Except String ParseConflictsResult :=
  match parseLoop (splitLines content) 0 none [] with
  | .error e => .error e
  | .ok conflicts =>
    .ok ⟨conflicts, decide (conflicts.length > 0), conflicts.length⟩

/-! ## Store operations that go through I/O (success paths)

`initMerge` and `reloadMergedFile` call `ipc.readMergeFiles` / `ipc.readFile`
(external file I/O) before parsing; the file contents those calls return are
taken here as arguments, and the error paths (which only record `error` /
`isLoading`, fields outside this model) leave the modelled state unchanged. -/

/-- `initMerge` (merge store), success path of the two IPC calls.  Note that
the `set` call does not mention `resolvedReplacements` or most other fields:
`zustand`'s `set` merges partially, so everything not listed is kept. -/
def initMerge (s : MergeState) (localC remoteC : String) (baseC : Option String)
    (mergedC mergedP language localLabel remoteLabel : String) : MergeState :=
  match parseConflicts mergedC with
  | .error _ => s
  | .ok parsed =>
    { s with
      localContent := some localC
      remoteContent := some remoteC
      baseContent := baseC
      mergedContent := some mergedC
      mergedPath := some mergedP
      language := language
      localLabel := localLabel
      remoteLabel := remoteLabel
      conflicts := parsed.conflicts
      currentConflictIndex := 0
      allResolved := !parsed.hasConflicts
      isDirty := false }

/-- `reloadMergedFile` (merge store), success path; `freshContent` is what
`ipc.readFile(mergedPath)` returned.  The JS guard `if (!mergedPath) return`
treats the empty string as falsy. -/
def reloadMergedFile (s : MergeState) (freshContent : String) : MergeState :=
  match s.mergedPath with
  | none => s
  | some p =>
    if p = "" then s
    else
      match parseConflicts freshContent with
      | .error _ => s
      | .ok parsed =>
        let oldResolved := s.conflicts.filter (·.resolved)
        let mergedConflicts := parsed.conflicts ++ oldResolved
        let hasUnresolved := parsed.hasConflicts
        { s with
          mergedContent := some freshContent
          conflicts := mergedConflicts
          currentConflictIndex := 0
          allResolved :=
            if !hasUnresolved && decide (oldResolved.length > 0) then
              checkAllResolved mergedConflicts
            else !hasUnresolved
          isDirty := false
          resolvedReplacements := s.resolvedReplacements }

/-- `save` (merge store), success path of `ipc.writeFile`: among the modelled
fields it only clears `isDirty` (and it does nothing when `mergedPath` is
falsy or `mergedContent` is `null`). -/
def saveOk (s : MergeState) : MergeState :=
  match s.mergedPath, s.mergedContent with
  | none, _ => s
  | some _, none => s
  | some p, some _ => if p = "" then s else { s with isDirty := false }

/-! ## RangeLocator (`useConflictDecorations.ts`) -/

/-- `findReplacementLineRange` (`useConflictDecorations.ts`): forward search
for the replacement's line sequence starting at `searchFrom`; on a match
returns the 1-based inclusive `(startLine, endLine)` pair and the next
0-based cursor `nextSearchFrom`. -/
def findReplacementLineRange (contentLines : List String)
    (replacement : String) (searchFrom : Nat) :
    Option (Nat × Nat × Nat) :=
  let replacementLines := splitLines replacement
  if replacementLines.length = 0 then none
  else
    match findRunFrom contentLines replacementLines searchFrom with
    | none => none
    | some i =>
      some (i + 1, i + replacementLines.length, i + replacementLines.length)

/-- The resolved-conflict arm of the decoration loop in
`useConflictDecorations`: walk the conflicts in order, keeping the forward
cursor `searchFrom`; every resolved conflict with a recorded replacement that
is found from the cursor onward contributes its 1-based inclusive line range
and advances the cursor; every other conflict contributes nothing here
(unresolved conflicts get marker-line decorations that are not computed by
this search). -/
def resolvedRangesLoop (rr : List (Nat × String)) (contentLines : List String) :
    List ConflictRegion → Nat → List (Nat × Nat)
  | [], _ => []
  | conflict :: rest, searchFrom =>
    if conflict.resolved then
      match rrGet rr conflict.id with
      | none => resolvedRangesLoop rr contentLines rest searchFrom
      | some replacement =>
        match findReplacementLineRange contentLines replacement searchFrom with
        | none => resolvedRangesLoop rr contentLines rest searchFrom
        | some (s, e, next) =>
          (s, e) :: resolvedRangesLoop rr contentLines rest next
    else resolvedRangesLoop rr contentLines rest searchFrom

/-- The list of highlight ranges for resolved conflicts, with the cursor
starting at 0 as in the source (`let searchFrom = 0`). -/
def resolvedRanges (conflicts : List ConflictRegion)
    (rr : List (Nat × String)) (contentLines : List String) :
    List (Nat × Nat) :=
  resolvedRangesLoop rr contentLines conflicts 0

/-! ## Reachability

The states of the merge store reachable from `initialState` by the store's
actions, with the file contents returned by the external I/O calls
universally quantified. -/

inductive Reachable : MergeState → Prop where
  | init : Reachable initialState
  | initMerge (s : MergeState) (localC remoteC : String) (baseC : Option String)
      (mergedC mergedP language localLabel remoteLabel : String) :
      Reachable s →
      Reachable (initMerge s localC remoteC baseC mergedC mergedP language
        localLabel remoteLabel)
  | acceptLocal (s : MergeState) (conflictId : Nat) :
      Reachable s → Reachable (acceptLocal s conflictId)
  | acceptRemote (s : MergeState) (conflictId : Nat) :
      Reachable s → Reachable (acceptRemote s conflictId)
  | acceptBoth (s : MergeState) (conflictId : Nat) :
      Reachable s → Reachable (acceptBoth s conflictId)
  | revertConflict (s : MergeState) (conflictId : Nat) :
      Reachable s → Reachable (revertConflict s conflictId)
  | updateMergedContent (s : MergeState) (content : String) :
      Reachable s → Reachable (updateMergedContent s content)
  | goToNextConflict (s : MergeState) :
      Reachable s → Reachable (goToNextConflict s).1
  | goToPrevConflict (s : MergeState) :
      Reachable s → Reachable (goToPrevConflict s).1
  | reloadMergedFile (s : MergeState) (freshContent : String) :
      Reachable s → Reachable (reloadMergedFile s freshContent)
  | saveOk (s : MergeState) :
      Reachable s → Reachable (saveOk s)

/-! ## Lemmas about the replacement map -/

theorem find?_filter_of_imp {α : Type _} {p q : α → Bool} (l : List α)
    (h : ∀ x, p x = true → q x = true) :
    (l.filter q).find? p = l.find? p := by
  induction l with
  | nil => rfl
  | cons a l ih =>
    by_cases hq : q a = true
    · rw [List.filter_cons_of_pos hq, List.find?_cons, List.find?_cons]
      cases hpa : p a <;> simp [ih]
    · rw [List.filter_cons_of_neg (by simpa using hq), List.find?_cons]
      have hpa : p a = false := by
        cases hpa : p a
        · rfl
        · exact absurd (h a hpa) hq
      simp [hpa, ih]

theorem rrGet_rrSet_self (rr : List (Nat × String)) (id : Nat) (v : String) :
    rrGet (rrSet rr id v) id = some v := by
  unfold rrGet rrSet
  rw [List.find?_append]
  have h1 : (rr.filter (fun e => e.1 != id)).find? (fun e => e.1 == id) = none := by
    rw [List.find?_eq_none]
    rintro ⟨a, b⟩ hmem
    rcases List.mem_filter.1 hmem with ⟨-, hne⟩
    simpa using bne_iff_ne.1 hne
  rw [h1]
  simp [List.find?_cons]

theorem rrGet_rrSet_ne (rr : List (Nat × String)) (id k : Nat) (v : String)
    (h : k ≠ id) : rrGet (rrSet rr id v) k = rrGet rr k := by
  unfold rrGet rrSet
  rw [List.find?_append]
  have h1 : ([((id : Nat), v)]).find? (fun e => e.1 == k) = none := by
    simp [List.find?_cons, Ne.symm h]
  rw [h1]
  rw [find?_filter_of_imp rr (p := fun e => e.1 == k) (q := fun e => e.1 != id)
    (fun x hx => by
      have : x.1 = k := by simpa using hx
      simp [this, h])]
  cases hf : rr.find? (fun e => e.1 == k) <;> simp

theorem rrGet_rrRemove_self (rr : List (Nat × String)) (id : Nat) :
    rrGet (rrRemove rr id) id = none := by
  unfold rrGet rrRemove
  rw [Option.map_eq_none']
  rw [List.find?_eq_none]
  rintro ⟨a, b⟩ hmem
  rcases List.mem_filter.1 hmem with ⟨-, hne⟩
  simpa using bne_iff_ne.1 hne

theorem rrGet_rrRemove_ne (rr : List (Nat × String)) (id k : Nat)
    (h : k ≠ id) : rrGet (rrRemove rr id) k = rrGet rr k := by
  unfold rrGet rrRemove
  rw [find?_filter_of_imp rr (p := fun e => e.1 == k) (q := fun e => e.1 != id)
    (fun x hx => by
      have : x.1 = k := by simpa using hx
      simp [this, h])]

/-! ## Lemmas about the forward line-run search -/

theorem find?_range'_eq_some {p : Nat → Bool} :
    ∀ {n k i : Nat}, (List.range' k n).find? p = some i ↔
      k ≤ i ∧ i < k + n ∧ p i = true ∧ ∀ j, k ≤ j → j < i → p j = false := by
  intro n
  induction n with
  | zero =>
    intro k i
    rw [List.range'_zero]
    constructor
    · intro h
      simp at h
    · rintro ⟨h1, h2, -, -⟩
      omega
  | succ n ih =>
    intro k i
    rw [List.range'_succ, List.find?_cons]
    cases hk : p k with
    | true =>
      simp only
      constructor
      · rintro h
        injection h with h
        subst h
        exact ⟨le_refl _, by omega, hk, fun j h1 h2 => absurd h1 (by omega)⟩
      · rintro ⟨h1, _, _, h4⟩
        rcases eq_or_lt_of_le h1 with rfl | hlt
        · rfl
        · exact absurd hk (by simp [h4 k (le_refl _) hlt])
    | false =>
      simp only
      rw [ih]
      constructor
      · rintro ⟨h1, h2, h3, h4⟩
        refine ⟨by omega, by omega, h3, fun j hj1 hj2 => ?_⟩
        rcases eq_or_lt_of_le hj1 with rfl | hlt
        · exact hk
        · exact h4 j hlt hj2
      · rintro ⟨h1, h2, h3, h4⟩
        have hik : k ≠ i := by
          rintro rfl
          simp [hk] at h3
        exact ⟨by omega, by omega, h3, fun j hj1 hj2 => h4 j (by omega) hj2⟩

theorem findRunFrom_eq_some_iff (content pat : List String) (k i : Nat) :
    findRunFrom content pat k = some i ↔
      k ≤ i ∧ i + pat.length ≤ content.length ∧
        matchesAt content pat i = true ∧
        ∀ j, k ≤ j → j < i → matchesAt content pat j = false := by
  unfold findRunFrom
  split
  · rename_i hlt
    constructor
    · intro h
      simp at h
    · rintro ⟨-, h2, -, -⟩
      omega
  · rename_i hge
    rw [find?_range'_eq_some]
    constructor
    · rintro ⟨h1, h2, h3, h4⟩
      exact ⟨h1, by omega, h3, h4⟩
    · rintro ⟨h1, h2, h3, h4⟩
      exact ⟨h1, by omega, h3, h4⟩

theorem findRunFrom_eq_none_iff (content pat : List String) (k : Nat) :
    findRunFrom content pat k = none ↔
      ∀ i, k ≤ i → i + pat.length ≤ content.length →
        matchesAt content pat i = false := by
  unfold findRunFrom
  split
  · rename_i hlt
    simp only [true_iff]
    intro i _ h
    omega
  · rename_i hge
    rw [List.find?_eq_none]
    constructor
    · intro h i h1 h2
      have : i ∈ List.range' k (content.length - pat.length + 1 - k) := by
        rw [List.mem_range'_1]
        omega
      simpa using h i this
    · intro h i hi
      rw [List.mem_range'_1] at hi
      simp only [Bool.not_eq_true]
      exact h i hi.1 (by omega)

theorem matchesAt_exact (pre pat post : List String) :
    matchesAt (pre ++ pat ++ post) pat pre.length = true := by
  unfold matchesAt
  rw [List.append_assoc, List.drop_left, List.take_left]
  exact decide_eq_true rfl

/-! ## Lemmas about `acceptConflict` -/

theorem acceptConflict_noop_unknown (s : MergeState) (conflictId : Nat)
    (f : ConflictRegion → String)
    (h : s.conflicts.find? (fun c => c.id == conflictId) = none) :
    acceptConflict s conflictId f = s := by
  unfold acceptConflict
  cases hm : s.mergedContent with
  | none => rfl
  | some mc =>
    by_cases hmc : mc = "" <;> simp [hmc, h]

theorem acceptConflict_noop_resolved (s : MergeState) (conflictId : Nat)
    (f : ConflictRegion → String) (c : ConflictRegion)
    (h : s.conflicts.find? (fun c => c.id == conflictId) = some c)
    (hres : c.resolved = true) :
    acceptConflict s conflictId f = s := by
  unfold acceptConflict
  cases hm : s.mergedContent with
  | none => rfl
  | some mc =>
    by_cases hmc : mc = "" <;> simp [hmc, h, hres]

theorem acceptConflict_fires (s : MergeState) (conflictId : Nat)
    (f : ConflictRegion → String) (mc : String) (c : ConflictRegion)
    (hm : s.mergedContent = some mc) (hmc : mc ≠ "")
    (h : s.conflicts.find? (fun c => c.id == conflictId) = some c)
    (hres : c.resolved = false) :
    acceptConflict s conflictId f =
      { s with
        mergedContent := some (resolveConflictInContent mc c (f c))
        conflicts := reParseAndPreserveResolved
          (resolveConflictInContent mc c (f c)) s.conflicts conflictId
        allResolved := checkAllResolved (reParseAndPreserveResolved
          (resolveConflictInContent mc c (f c)) s.conflicts conflictId)
        isDirty := true
        resolvedReplacements := rrSet s.resolvedReplacements conflictId (f c) } := by
  unfold acceptConflict
  rw [hm]
  simp [hmc, h, hres]

/-! ## Emptiness and marker-text lemmas -/

theorem string_mk_data (s : String) : String.mk s.data = s := rfl

theorem joinLines_singleton (x : String) : joinLines [x] = x := rfl

theorem joinLines_ne_empty (ls : List String) (h1 : ls ≠ [])
    (h2 : ls ≠ [""]) : joinLines ls ≠ "" := by
  match ls with
  | [] => exact absurd rfl h1
  | [x] =>
    rw [joinLines_singleton]
    intro hx
    exact h2 (by rw [hx])
  | a :: b :: t =>
    intro hcontra
    have hdata : (joinLines (a :: b :: t)).data = ("" : String).data := by
      rw [hcontra]
    simp only [joinLines, List.map_cons, joinNL] at hdata
    have : a.data ++ '\n' :: joinNL (b.data :: List.map String.data t) = [] := hdata
    rcases List.append_eq_nil.1 this with ⟨-, h⟩
    exact List.cons_ne_nil _ _ h

theorem splitLines_empty : splitLines "" = [""] := rfl

/-- Character-level shape of the reconstructed marker text: five chunks
separated by newlines. -/
theorem splitNL_five (A B C D E : List Char) (hA : '\n' ∉ A) (hC : '\n' ∉ C)
    (hE : '\n' ∉ E) :
    splitNL (A ++ '\n' :: (B ++ '\n' :: (C ++ '\n' :: (D ++ '\n' :: E)))) =
      [A] ++ splitNL B ++ ([C] ++ (splitNL D ++ [E])) := by
  rw [splitNL_append, splitNL_append, splitNL_append, splitNL_append]
  rw [splitNL_of_not_mem A hA, splitNL_of_not_mem C hC, splitNL_of_not_mem E hE]
  simp

/-- `splitLines` of the reconstructed two-way marker block: the opening
marker line with the fixed `LOCAL` label, the LOCAL side's lines, the
separator, the REMOTE side's lines and the closing marker line with the
fixed `REMOTE` label; no base side is reconstructed. -/
theorem splitLines_revertMarkerText (c : ConflictRegion) :
    splitLines (revertMarkerText c) =
      "<<<<<<< LOCAL" :: (splitLines c.localContent ++
        ("=======" :: (splitLines c.remoteContent ++ [">>>>>>> REMOTE"]))) := by
  have hdata : (revertMarkerText c).data =
      ("<<<<<<< LOCAL" : String).data ++ '\n' :: (c.localContent.data ++
        '\n' :: (("=======" : String).data ++ '\n' :: (c.remoteContent.data ++
          '\n' :: (">>>>>>> REMOTE" : String).data))) := by
    simp only [revertMarkerText, String.data_append]
    simp
  simp only [splitLines, hdata]
  rw [splitNL_five _ _ _ _ _ (by decide) (by decide) (by decide)]
  simp only [List.map_append, List.map_cons, List.map_nil]
  rfl

/-! ## Parser invariants -/

theorem parseLoop_resolved (lines : List String) :
    ∀ (idx : Nat) (pending : Option OpenBlock) (acc out : List ConflictRegion),
      (∀ r ∈ acc, r.resolved = false) →
      parseLoop lines idx pending acc = .ok out →
      ∀ r ∈ out, r.resolved = false := by
  induction lines with
  | nil =>
    intro idx pending acc out hacc h
    cases pending with
    | none =>
      simp only [parseLoop] at h
      injection h with h
      subst h
      exact hacc
    | some p => simp [parseLoop] at h
  | cons l rest ih =>
    intro idx pending acc out hacc h
    cases pending with
    | none =>
      simp only [parseLoop] at h
      split at h
      · exact ih _ _ _ _ hacc h
      · exact ih _ _ _ _ hacc h
    | some p =>
      simp only [parseLoop] at h
      split at h
      · exact absurd h (by simp)
      · split at h
        · split at h
          · exact ih _ _ _ _ hacc h
          · split at h
            · exact ih _ _ _ _ hacc h
            · split at h
              · exact absurd h (by simp)
              · exact ih _ _ _ _ hacc h
        · split at h
          · exact ih _ _ _ _ hacc h
          · split at h
            · exact absurd h (by simp)
            · split at h
              · exact absurd h (by simp)
              · exact ih _ _ _ _ hacc h
        · split at h
          · refine ih _ _ _ _ ?_ h
            intro r hr
            rcases List.mem_append.1 hr with hr | hr
            · exact hacc r hr
            · rcases List.mem_singleton.1 hr with rfl
              rfl
          · split at h
            · exact absurd h (by simp)
            · split at h
              · exact absurd h (by simp)
              · exact ih _ _ _ _ hacc h

theorem parseConflicts_ok_resolved (content : String)
    (pr : ParseConflictsResult) (h : parseConflicts content = .ok pr) :
    ∀ r ∈ pr.conflicts, r.resolved = false := by
  unfold parseConflicts at h
  cases hp : parseLoop (splitLines content) 0 none [] with
  | error e => rw [hp] at h; exact absurd h (by simp)
  | ok conflicts =>
    rw [hp] at h
    injection h with h
    subst h
    exact parseLoop_resolved (splitLines content) 0 none [] conflicts
      (by simp) hp

theorem parseConflicts_ok_hasConflicts (content : String)
    (pr : ParseConflictsResult) (h : parseConflicts content = .ok pr) :
    pr.hasConflicts = decide (pr.conflicts.length > 0) := by
  unfold parseConflicts at h
  cases hp : parseLoop (splitLines content) 0 none [] with
  | error e => rw [hp] at h; exact absurd h (by simp)
  | ok conflicts =>
    rw [hp] at h
    injection h with h
    subst h
    rfl

/-! ## Outcome-shape lemmas for each operation -/

theorem acceptConflict_cases (s : MergeState) (conflictId : Nat)
    (f : ConflictRegion → String) :
    acceptConflict s conflictId f = s ∨
      ∃ mc c, s.mergedContent = some mc ∧ mc ≠ "" ∧
        s.conflicts.find? (fun c => c.id == conflictId) = some c ∧
        c.resolved = false ∧
        acceptConflict s conflictId f =
          { s with
            mergedContent := some (resolveConflictInContent mc c (f c))
            conflicts := reParseAndPreserveResolved
              (resolveConflictInContent mc c (f c)) s.conflicts conflictId
            allResolved := checkAllResolved (reParseAndPreserveResolved
              (resolveConflictInContent mc c (f c)) s.conflicts conflictId)
            isDirty := true
            resolvedReplacements :=
              rrSet s.resolvedReplacements conflictId (f c) } := by
  cases hm : s.mergedContent with
  | none => left; unfold acceptConflict; rw [hm]
  | some mc =>
    by_cases hmc : mc = ""
    · left
      unfold acceptConflict
      rw [hm]
      simp [hmc]
    · cases hf : s.conflicts.find? (fun c => c.id == conflictId) with
      | none => left; exact acceptConflict_noop_unknown s conflictId f hf
      | some c =>
        cases hres : c.resolved with
        | true => left; exact acceptConflict_noop_resolved s conflictId f c hf hres
        | false =>
          right
          exact ⟨mc, c, rfl, hmc, rfl, hres,
            acceptConflict_fires s conflictId f mc c hm hmc hf hres⟩

theorem revertConflict_cases (s : MergeState) (conflictId : Nat) :
    revertConflict s conflictId = s ∨
      ∃ mc c repl i, s.mergedContent = some mc ∧ mc ≠ "" ∧
        s.conflicts.find? (fun c => c.id == conflictId) = some c ∧
        c.resolved = true ∧
        rrGet s.resolvedReplacements conflictId = some repl ∧
        findRunFrom (splitLines mc) (splitLines repl) 0 = some i ∧
        revertConflict s conflictId =
          { s with
            mergedContent := some (joinLines ((splitLines mc).take i ++
              splitLines (revertMarkerText c) ++
              (splitLines mc).drop (i + (splitLines repl).length)))
            conflicts := s.conflicts.map (fun c =>
              if c.id == conflictId then { c with resolved := false } else c)
            resolvedReplacements := rrRemove s.resolvedReplacements conflictId
            allResolved := checkAllResolved (s.conflicts.map (fun c =>
              if c.id == conflictId then { c with resolved := false } else c))
            isDirty := true } := by
  cases hm : s.mergedContent with
  | none => left; unfold revertConflict; rw [hm]
  | some mc =>
    by_cases hmc : mc = ""
    · left
      unfold revertConflict
      rw [hm]
      simp [hmc]
    · cases hf : s.conflicts.find? (fun c => c.id == conflictId) with
      | none =>
        left
        unfold revertConflict
        rw [hm]
        simp [hmc, hf]
      | some c =>
        cases hres : c.resolved with
        | false =>
          left
          unfold revertConflict
          rw [hm]
          simp [hmc, hf, hres]
        | true =>
          cases hr : rrGet s.resolvedReplacements conflictId with
          | none =>
            left
            unfold revertConflict
            rw [hm]
            simp [hmc, hf, hres, hr]
          | some repl =>
            cases hrun : findRunFrom (splitLines mc)
                (splitLines repl) 0 with
            | none =>
              left
              unfold revertConflict
              rw [hm]
              simp [hmc, hf, hres, hr, hrun]
            | some i =>
              right
              refine ⟨mc, c, repl, i, rfl, hmc, rfl, hres, rfl, hrun, ?_⟩
              unfold revertConflict
              rw [hm]
              simp [hmc, hf, hres, hr, hrun]

theorem initMerge_cases (s : MergeState) (localC remoteC : String)
    (baseC : Option String)
    (mergedC mergedP language localLabel remoteLabel : String) :
    initMerge s localC remoteC baseC mergedC mergedP language localLabel
        remoteLabel = s ∨
      ∃ pr, parseConflicts mergedC = .ok pr ∧
        initMerge s localC remoteC baseC mergedC mergedP language localLabel
            remoteLabel =
          { s with
            localContent := some localC
            remoteContent := some remoteC
            baseContent := baseC
            mergedContent := some mergedC
            mergedPath := some mergedP
            language := language
            localLabel := localLabel
            remoteLabel := remoteLabel
            conflicts := pr.conflicts
            currentConflictIndex := 0
            allResolved := !pr.hasConflicts
            isDirty := false } := by
  cases hp : parseConflicts mergedC with
  | error e => left; unfold initMerge; rw [hp]
  | ok pr =>
    right
    refine ⟨pr, rfl, ?_⟩
    unfold initMerge
    rw [hp]

theorem reloadMergedFile_cases (s : MergeState) (freshContent : String) :
    reloadMergedFile s freshContent = s ∨
      ∃ p pr, s.mergedPath = some p ∧ p ≠ "" ∧
        parseConflicts freshContent = .ok pr ∧
        reloadMergedFile s freshContent =
          { s with
            mergedContent := some freshContent
            conflicts := pr.conflicts ++ s.conflicts.filter (·.resolved)
            currentConflictIndex := 0
            allResolved :=
              if !pr.hasConflicts &&
                  decide ((s.conflicts.filter (·.resolved)).length > 0) then
                checkAllResolved
                  (pr.conflicts ++ s.conflicts.filter (·.resolved))
              else !pr.hasConflicts
            isDirty := false } := by
  cases hm : s.mergedPath with
  | none => left; unfold reloadMergedFile; rw [hm]
  | some p =>
    by_cases hp : p = ""
    · left
      unfold reloadMergedFile
      rw [hm]
      simp [hp]
    · cases hpr : parseConflicts freshContent with
      | error e =>
        left
        unfold reloadMergedFile
        rw [hm]
        simp [hp, hpr]
      | ok pr =>
        right
        refine ⟨p, pr, rfl, hp, rfl, ?_⟩
        unfold reloadMergedFile
        rw [hm]
        simp [hp, hpr]

theorem goToNextConflict_fst (s : MergeState) :
    (goToNextConflict s).1 = s ∨
      ∃ t, (goToNextConflict s).1 = { s with currentConflictIndex := t } := by
  simp only [goToNextConflict]
  split
  · left; rfl
  · split
    · left; rfl
    · right; exact ⟨_, rfl⟩

theorem goToPrevConflict_fst (s : MergeState) :
    (goToPrevConflict s).1 = s ∨
      ∃ t, (goToPrevConflict s).1 = { s with currentConflictIndex := t } := by
  simp only [goToPrevConflict]
  split
  · left; rfl
  · split
    · left; rfl
    · right; exact ⟨_, rfl⟩

theorem saveOk_cases (s : MergeState) :
    saveOk s = s ∨ saveOk s = { s with isDirty := false } := by
  unfold saveOk
  split
  · left; rfl
  · left; rfl
  · split
    · left; rfl
    · right; rfl

theorem all_eq_false_of_mem {l : List ConflictRegion} {c : ConflictRegion}
    (hc : c ∈ l) (h : c.resolved = false) : l.all (·.resolved) = false := by
  rw [List.all_eq_false]
  exact ⟨c, hc, by simp [h]⟩

/-! ## Concrete scenario inputs (used by witnesses and counterexamples) -/

/-- Scenario A input (spec §8). -/
def scenarioADoc : String := "a\n<<<<<<< LOCAL\nX\n=======\nY\n>>>>>>> REMOTE\nb\n"

/-- The store state after a successful `initMerge` on the Scenario A file. -/
def scenarioAState : MergeState :=
  initMerge initialState "local" "remote" none scenarioADoc "/tmp/merged"
    "plaintext" "LOCAL" "REMOTE"

/-- The region Scenario A parses to. -/
def scenarioARegion : ConflictRegion :=
  ⟨0, 1, 2, 3, none, none, 4, 5, 5, "X", none, "Y", false⟩

/-- A document with two sequential two-way conflicts. -/
def twoConflictDoc : String :=
  "a\n<<<<<<< LOCAL\nX\n=======\nY\n>>>>>>> REMOTE\nb\n" ++
    "<<<<<<< LOCAL\nP\n=======\nQ\n>>>>>>> REMOTE\nc\n"

/-- The store state after a successful `initMerge` on `twoConflictDoc`. -/
def twoConflictState : MergeState :=
  initMerge initialState "local" "remote" none twoConflictDoc "/tmp/merged"
    "plaintext" "LOCAL" "REMOTE"

/-- A document with no conflict markers. -/
def noConflictDoc : String := "a\nb\n"

/-- The store state after a successful `initMerge` on `noConflictDoc`. -/
def noConflictState : MergeState :=
  initMerge initialState "local" "remote" none noConflictDoc "/tmp/merged"
    "plaintext" "LOCAL" "REMOTE"

/-! ## Further accept lemmas -/

theorem find?_reParse (l : List ConflictRegion) (conflictId : Nat)
    (nc : String) :
    (reParseAndPreserveResolved nc l conflictId).find?
        (fun c => c.id == conflictId) =
      (l.find? (fun c => c.id == conflictId)).map (fun c =>
        if c.id == conflictId then { c with resolved := true } else c) := by
  unfold reParseAndPreserveResolved
  rw [List.find?_map]
  have hfun : ((fun (c : ConflictRegion) => c.id == conflictId) ∘ (fun c =>
      if c.id == conflictId then { c with resolved := true } else c)) =
      (fun c => c.id == conflictId) := by
    funext x
    by_cases hx : x.id = conflictId <;> simp [Function.comp, hx]
  rw [hfun]

theorem acceptConflict_idem (s : MergeState) (conflictId : Nat)
    (f : ConflictRegion → String) :
    acceptConflict (acceptConflict s conflictId f) conflictId f =
      acceptConflict s conflictId f := by
  rcases acceptConflict_cases s conflictId f with h | ⟨mc, c, hm, hmc, hf, hres, heq⟩
  · rw [h, h]
  · rw [heq]
    have hc := List.find?_some hf
    have hfind : (reParseAndPreserveResolved
        (resolveConflictInContent mc c (f c)) s.conflicts conflictId).find?
        (fun x => x.id == conflictId) = some { c with resolved := true } := by
      rw [find?_reParse, hf]
      simp [hc]
      intro hcontra
      exact absurd (by simpa using hc) hcontra
    exact acceptConflict_noop_resolved _ _ _ _ hfind rfl

/-- The replacement lines `acceptBoth` splices in, rewritten in the form the
spec uses: the LOCAL side's lines followed by the REMOTE side's lines, each
side omitted entirely when it is the empty string. -/
theorem acceptBoth_replacement_lines (lc rc : String) :
    (if joinLines (([lc, rc]).filter (fun c => c.length > 0)) = "" then []
      else splitLines (joinLines (([lc, rc]).filter (fun c => c.length > 0)))) =
      ((if lc = "" then [] else splitLines lc) ++
        (if rc = "" then [] else splitLines rc)) := by
  have hlen : ∀ t : String, t ≠ "" → (decide (t.length > 0)) = true := by
    intro t h
    have hd : t.data ≠ [] := fun hd => h (String.ext hd)
    have hp : 0 < t.data.length := List.length_pos.2 hd
    exact decide_eq_true hp
  by_cases hlc : lc = "" <;> by_cases hrc : rc = ""
  · subst hlc
    subst hrc
    decide
  · subst hlc
    have hfil : (["", rc]).filter (fun c => c.length > 0) = [rc] := by
      simp only [List.filter_cons, List.filter_nil, hlen rc hrc]
      simp only [show (decide ((("" : String)).length > 0)) = false from rfl]
      simp
    rw [hfil, joinLines_singleton, if_neg hrc]
    simp [hrc]
  · subst hrc
    have hfil : ([lc, ""]).filter (fun c => c.length > 0) = [lc] := by
      simp only [List.filter_cons, List.filter_nil, hlen lc hlc]
      simp
    rw [hfil, joinLines_singleton, if_neg hlc]
    simp [hlc]
  · have hfil : ([lc, rc]).filter (fun c => c.length > 0) = [lc, rc] := by
      simp only [List.filter_cons, List.filter_nil, hlen lc hlc, hlen rc hrc]
      simp
    have hjoin : joinLines [lc, rc] = lc ++ "\n" ++ rc := by
      apply String.ext
      simp [joinLines, joinNL, String.data_append]
    have hne : lc ++ "\n" ++ rc ≠ "" := by
      intro hcontra
      have h2 := congrArg String.data hcontra
      simp [String.data_append] at h2
    rw [hfil, hjoin, if_neg hne, splitLines_append_newline, if_neg hlc,
      if_neg hrc]

/-! ## Claim theorems -/

/-- **C7.**  For every unresolved region found by id, `acceptBoth` replaces
the lines from the region's `startLine` through `endLine` (inclusive) with
the LOCAL side's lines followed by the REMOTE side's lines, newline-joined,
each side omitted entirely when it is the empty string (no stray blank
line).  The Scenario A instance (`"a\nX\nY\nb\n"`) is the witness. -/
theorem C7_acceptBoth_correct (s : MergeState) (conflictId : Nat)
    (mc : String) (c : ConflictRegion)
    (hm : s.mergedContent = some mc) (hmc : mc ≠ "")
    (hf : s.conflicts.find? (fun c => c.id == conflictId) = some c)
    (hres : c.resolved = false) :
    (acceptBoth s conflictId).mergedContent =
      some (joinLines ((splitLines mc).take c.startLine ++
        ((if c.localContent = "" then [] else splitLines c.localContent) ++
          (if c.remoteContent = "" then [] else splitLines c.remoteContent)) ++
        (splitLines mc).drop (c.endLine + 1))) := by
  unfold acceptBoth
  rw [acceptConflict_fires s conflictId _ mc c hm hmc hf hres]
  show some (resolveConflictInContent mc c _) = _
  unfold resolveConflictInContent
  rw [show (if joinLines (([c.localContent, c.remoteContent]).filter
      (fun c => c.length > 0)) = "" then []
    else splitLines (joinLines (([c.localContent, c.remoteContent]).filter
      (fun c => c.length > 0)))) =
      ((if c.localContent = "" then [] else splitLines c.localContent) ++
        (if c.remoteContent = "" then [] else splitLines c.remoteContent))
    from acceptBoth_replacement_lines c.localContent c.remoteContent]

/-- Witness for C7: the Scenario A file as the spec states it. -/
theorem C7_witness :
    scenarioAState.conflicts = [scenarioARegion] ∧
    (acceptBoth scenarioAState 0).mergedContent = some "a\nX\nY\nb\n" := by
  refine ⟨by decide, ?_⟩
  rw [C7_acceptBoth_correct scenarioAState 0 scenarioADoc scenarioARegion
    (by decide) (by decide) (by decide) (by decide)]
  decide

/-- **C8.**  Calling `acceptLocal` / `acceptRemote` / `acceptBoth` with an
unknown id, or with an id whose region is already resolved, leaves the whole
store state unchanged; consequently each of the three accept operations is
idempotent. -/
theorem C8_accept_noop_idempotent (s : MergeState) (conflictId : Nat) :
    (s.conflicts.find? (fun c => c.id == conflictId) = none →
      acceptLocal s conflictId = s ∧ acceptRemote s conflictId = s ∧
        acceptBoth s conflictId = s) ∧
    (∀ c, s.conflicts.find? (fun c => c.id == conflictId) = some c →
      c.resolved = true →
      acceptLocal s conflictId = s ∧ acceptRemote s conflictId = s ∧
        acceptBoth s conflictId = s) ∧
    acceptLocal (acceptLocal s conflictId) conflictId =
      acceptLocal s conflictId ∧
    acceptRemote (acceptRemote s conflictId) conflictId =
      acceptRemote s conflictId ∧
    acceptBoth (acceptBoth s conflictId) conflictId =
      acceptBoth s conflictId := by
  refine ⟨fun hf => ⟨?_, ?_, ?_⟩, fun c hf hres => ⟨?_, ?_, ?_⟩, ?_, ?_, ?_⟩
  · exact acceptConflict_noop_unknown s conflictId _ hf
  · exact acceptConflict_noop_unknown s conflictId _ hf
  · exact acceptConflict_noop_unknown s conflictId _ hf
  · exact acceptConflict_noop_resolved s conflictId _ c hf hres
  · exact acceptConflict_noop_resolved s conflictId _ c hf hres
  · exact acceptConflict_noop_resolved s conflictId _ c hf hres
  · exact acceptConflict_idem s conflictId _
  · exact acceptConflict_idem s conflictId _
  · exact acceptConflict_idem s conflictId _

/-- Witness for C8: an unknown id on the Scenario A state, and a second
`acceptLocal` on the id just accepted. -/
theorem C8_witness :
    scenarioAState.conflicts.find? (fun c => c.id == 7) = none ∧
    acceptLocal scenarioAState 7 = scenarioAState ∧
    acceptLocal (acceptLocal scenarioAState 0) 0 =
      acceptLocal scenarioAState 0 := by
  refine ⟨by decide, ?_, ?_⟩
  · exact ((C8_accept_noop_idempotent scenarioAState 7).1 (by decide)).1
  · exact (C8_accept_noop_idempotent scenarioAState 0).2.2.1

theorem accept_preserves_entry (s : MergeState) (conflictId : Nat)
    (f : ConflictRegion → String)
    (ih : ∀ c ∈ s.conflicts, c.resolved = true →
      (rrGet s.resolvedReplacements c.id).isSome = true) :
    ∀ c ∈ (acceptConflict s conflictId f).conflicts, c.resolved = true →
      (rrGet (acceptConflict s conflictId f).resolvedReplacements c.id).isSome
        = true := by
  rcases acceptConflict_cases s conflictId f with h | ⟨mc, c, hm, hmc, hf, hres, heq⟩
  · rw [h]; exact ih
  · rw [heq]
    intro c' hc' hres'
    show (rrGet (rrSet s.resolvedReplacements conflictId (f c)) c'.id).isSome
      = true
    have hc'' : c' ∈ (s.conflicts).map (fun d =>
        if d.id == conflictId then { d with resolved := true } else d) := hc'
    rcases List.mem_map.1 hc'' with ⟨d, hd, rfl⟩
    by_cases hid : (d.id == conflictId) = true
    · rw [if_pos hid]
      have hdid : d.id = conflictId := by simpa using hid
      show (rrGet (rrSet s.resolvedReplacements conflictId (f c)) d.id).isSome
        = true
      rw [hdid, rrGet_rrSet_self]
      rfl
    · rw [if_neg hid] at hres' ⊢
      rw [rrGet_rrSet_ne s.resolvedReplacements conflictId d.id (f c)
        (by simpa using hid)]
      exact ih d hd hres'

theorem checkAllResolved_eq_false_of_unresolved (l : List ConflictRegion)
    (c : ConflictRegion) (hc : c ∈ l) (h : c.resolved = false) :
    checkAllResolved l = false := by
  unfold checkAllResolved
  rw [all_eq_false_of_mem hc h]
  simp

/-- **C2** is refuted by the code: `initMerge` (and `reloadMergedFile`) set
`allResolved := !hasConflicts`, so a successful `initMerge` on a document
with no conflict markers leaves an empty `conflicts` list with
`allResolved = true`, where the claim demands `false`. -/
theorem C2_counterexample :
    Reachable noConflictState ∧ noConflictState.conflicts = [] ∧
      noConflictState.allResolved = true :=
  ⟨Reachable.initMerge initialState "local" "remote" none noConflictDoc
      "/tmp/merged" "plaintext" "LOCAL" "REMOTE" Reachable.init,
    by decide, by decide⟩

/-- **C2** (amended).  In every reachable state, `allResolved` equals
`checkAllResolved conflicts` (true iff the conflicts list is non-empty and
every region is resolved) — except that a state with an empty conflicts list
may carry `allResolved = true`, because `initMerge` and `reloadMergedFile`
set `allResolved := !hasConflicts`, which is `true` when the parsed document
has no conflict markers. -/
theorem C2_allResolved_amended (s : MergeState) (h : Reachable s) :
    s.allResolved = checkAllResolved s.conflicts ∨
      (s.conflicts = [] ∧ s.allResolved = true) := by
  induction h with
  | init => left; rfl
  | initMerge s localC remoteC baseC mergedC mergedP language localLabel remoteLabel hs ih =>
    rcases initMerge_cases s localC remoteC baseC mergedC mergedP language
      localLabel remoteLabel with h | ⟨pr, hparse, heq⟩
    · rw [h]; exact ih
    · rw [heq]
      dsimp only
      by_cases hcs : pr.conflicts = []
      · right
        refine ⟨hcs, ?_⟩
        rw [parseConflicts_ok_hasConflicts mergedC pr hparse, hcs]
        rfl
      · left
        obtain ⟨hd, hhd⟩ := List.exists_mem_of_ne_nil _ hcs
        rw [checkAllResolved_eq_false_of_unresolved pr.conflicts hd hhd
          (parseConflicts_ok_resolved mergedC pr hparse hd hhd)]
        rw [parseConflicts_ok_hasConflicts mergedC pr hparse]
        rw [decide_eq_true (List.length_pos.2 hcs)]
        rfl
  | acceptLocal s conflictId hs ih =>
    unfold acceptLocal
    rcases acceptConflict_cases s conflictId
      (fun conflict => conflict.localContent) with
      h | ⟨mc, c, hm, hmc, hf, hres, heq⟩
    · rw [h]; exact ih
    · rw [heq]; left; rfl
  | acceptRemote s conflictId hs ih =>
    unfold acceptRemote
    rcases acceptConflict_cases s conflictId
      (fun conflict => conflict.remoteContent) with
      h | ⟨mc, c, hm, hmc, hf, hres, heq⟩
    · rw [h]; exact ih
    · rw [heq]; left; rfl
  | acceptBoth s conflictId hs ih =>
    unfold acceptBoth
    rcases acceptConflict_cases s conflictId
      (fun conflict => joinLines (([conflict.localContent,
        conflict.remoteContent]).filter (fun c => c.length > 0))) with
      h | ⟨mc, c, hm, hmc, hf, hres, heq⟩
    · rw [h]; exact ih
    · rw [heq]; left; rfl
  | revertConflict s conflictId hs ih =>
    rcases revertConflict_cases s conflictId with
      h | ⟨mc, c, repl, i, hm, hmc, hf, hres, hr, hrun, heq⟩
    · rw [h]; exact ih
    · rw [heq]; left; rfl
  | updateMergedContent s content hs ih => exact ih
  | goToNextConflict s hs ih =>
    rcases goToNextConflict_fst s with h | ⟨t, h⟩ <;> rw [h] <;> exact ih
  | goToPrevConflict s hs ih =>
    rcases goToPrevConflict_fst s with h | ⟨t, h⟩ <;> rw [h] <;> exact ih
  | reloadMergedFile s fresh hs ih =>
    rcases reloadMergedFile_cases s fresh with h | ⟨p, pr, hp, hpne, hparse, heq⟩
    · rw [h]; exact ih
    · rw [heq]
      dsimp only
      by_cases hb : (!pr.hasConflicts &&
          decide ((List.filter (fun x => x.resolved) s.conflicts).length > 0))
          = true
      · rw [if_pos hb]
        left
        rfl
      · rw [if_neg hb]
        by_cases hhc : pr.hasConflicts = true
        · left
          have hlen : pr.conflicts.length > 0 := by
            have h2 := parseConflicts_ok_hasConflicts fresh pr hparse
            rw [hhc] at h2
            exact of_decide_eq_true h2.symm
          obtain ⟨hd, hhd⟩ := List.exists_mem_of_length_pos hlen
          rw [checkAllResolved_eq_false_of_unresolved _ hd
            (List.mem_append.2 (Or.inl hhd))
            (parseConflicts_ok_resolved fresh pr hparse hd hhd)]
          rw [hhc]
          rfl
        · right
          have hhcf : pr.hasConflicts = false := by
            cases hx : pr.hasConflicts
            · rfl
            · exact absurd hx hhc
          have hlen0 : ¬ ((List.filter (fun x => x.resolved)
              s.conflicts).length > 0) := by
            intro hpos
            rw [hhcf] at hb
            exact hb (by simp [decide_eq_true hpos])
          have holdnil : List.filter (fun x => x.resolved) s.conflicts = [] :=
            List.length_eq_zero.1 (by omega)
          have hprnil : pr.conflicts = [] := by
            have h2 := parseConflicts_ok_hasConflicts fresh pr hparse
            rw [hhcf] at h2
            have h3 := of_decide_eq_false h2.symm
            exact List.length_eq_zero.1 (by omega)
          constructor
          · rw [holdnil, hprnil]
            rfl
          · rw [hhcf]
            rfl
  | saveOk s hs ih =>
    rcases saveOk_cases s with h | h <;> rw [h] <;> exact ih

/-- Witness for the amended C2, at the initial state. -/
theorem C2_amended_witness :
    initialState.allResolved = checkAllResolved initialState.conflicts ∨
      (initialState.conflicts = [] ∧ initialState.allResolved = true) :=
  C2_allResolved_amended initialState Reachable.init

/-- The state after `initMerge`, `acceptLocal 0`, and a second `initMerge`
on the same file: the fresh parse marks region 0 unresolved while its old
replacement entry survives, because `initMerge` does not reset
`resolvedReplacements`. -/
def reinitState : MergeState :=
  initMerge (acceptLocal scenarioAState 0) "local" "remote" none scenarioADoc
    "/tmp/merged" "plaintext" "LOCAL" "REMOTE"

/-- **C4** is refuted by the code: after `initMerge`, `acceptLocal 0` and a
second `initMerge` on the same document, region 0 is unresolved but
`resolvedReplacements` still contains an entry for id 0 (the `set` call in
`initMerge` never clears `resolvedReplacements`). -/
theorem C4_counterexample :
    Reachable reinitState ∧
      reinitState.conflicts.map (fun c => (c.id, c.resolved)) = [(0, false)] ∧
      rrGet reinitState.resolvedReplacements 0 = some "X" :=
  ⟨Reachable.initMerge _ "local" "remote" none scenarioADoc "/tmp/merged"
      "plaintext" "LOCAL" "REMOTE"
      (Reachable.acceptLocal _ 0
        (Reachable.initMerge initialState "local" "remote" none scenarioADoc
          "/tmp/merged" "plaintext" "LOCAL" "REMOTE" Reachable.init)),
    by decide, by decide⟩

/-- **C4** (amended).  In every reachable state, the forward direction
holds: every conflict region with `resolved = true` has an entry in
`resolvedReplacements` under its id.  The converse fails (see the
counterexample): stale entries survive `initMerge`, and after a reload a
fresh region can share its id with an old resolved one. -/
theorem C4_resolved_implies_entry (s : MergeState) (h : Reachable s) :
    ∀ c ∈ s.conflicts, c.resolved = true →
      (rrGet s.resolvedReplacements c.id).isSome = true := by
  induction h with
  | init => intro c hc; simp [initialState] at hc
  | initMerge s localC remoteC baseC mergedC mergedP language localLabel remoteLabel hs ih =>
    rcases initMerge_cases s localC remoteC baseC mergedC mergedP language
      localLabel remoteLabel with h | ⟨pr, hparse, heq⟩
    · rw [h]; exact ih
    · rw [heq]
      intro c hc hres
      exact absurd hres (by
        rw [parseConflicts_ok_resolved mergedC pr hparse c hc]
        simp)
  | acceptLocal s conflictId hs ih =>
    exact accept_preserves_entry s conflictId _ ih
  | acceptRemote s conflictId hs ih =>
    exact accept_preserves_entry s conflictId _ ih
  | acceptBoth s conflictId hs ih =>
    exact accept_preserves_entry s conflictId _ ih
  | revertConflict s conflictId hs ih =>
    rcases revertConflict_cases s conflictId with
      h | ⟨mc, c, repl, i, hm, hmc, hf, hres, hr, hrun, heq⟩
    · rw [h]; exact ih
    · rw [heq]
      intro c' hc' hres'
      rcases List.mem_map.1 hc' with ⟨d, hd, rfl⟩
      by_cases hid : (d.id == conflictId) = true
      · rw [if_pos hid] at hres' ⊢
        exact absurd hres' (by simp)
      · rw [if_neg hid] at hres' ⊢
        show (rrGet (rrRemove s.resolvedReplacements conflictId) d.id).isSome
          = true
        rw [rrGet_rrRemove_ne s.resolvedReplacements conflictId d.id
          (by simpa using hid)]
        exact ih d hd hres'
  | updateMergedContent s content hs ih => exact ih
  | goToNextConflict s hs ih =>
    rcases goToNextConflict_fst s with h | ⟨t, h⟩ <;> rw [h] <;> exact ih
  | goToPrevConflict s hs ih =>
    rcases goToPrevConflict_fst s with h | ⟨t, h⟩ <;> rw [h] <;> exact ih
  | reloadMergedFile s fresh hs ih =>
    rcases reloadMergedFile_cases s fresh with h | ⟨p, pr, hp, hpne, hparse, heq⟩
    · rw [h]; exact ih
    · rw [heq]
      intro c hc hres
      show (rrGet s.resolvedReplacements c.id).isSome = true
      rcases List.mem_append.1 hc with hc | hc
      · exact absurd hres (by
          rw [parseConflicts_ok_resolved fresh pr hparse c hc]
          simp)
      · exact ih c (List.mem_filter.1 hc).1 hres
  | saveOk s hs ih =>
    rcases saveOk_cases s with h | h <;> rw [h] <;> exact ih

/-- Witness for the amended C4: the resolved region of the Scenario A state
after `acceptLocal 0` has an entry under its id. -/
theorem C4_amended_witness :
    (rrGet (acceptLocal scenarioAState 0).resolvedReplacements
      ((acceptLocal scenarioAState 0).conflicts.headI.id)).isSome = true :=
  C4_resolved_implies_entry (acceptLocal scenarioAState 0)
    (Reachable.acceptLocal _ 0
      (Reachable.initMerge initialState "local" "remote" none scenarioADoc
        "/tmp/merged" "plaintext" "LOCAL" "REMOTE" Reachable.init))
    (acceptLocal scenarioAState 0).conflicts.headI (by decide) (by decide)

/-- **C6.**  After a successful `reloadMergedFile`, every region that was
resolved in the prior in-memory state is still present (with its
`resolved = true` flag and all other fields intact), every region of the
fresh parse is present, and `resolvedReplacements` is unchanged, so each
carried region's replacement entry survives. -/
theorem C6_reload_preserves (s : MergeState) (fresh p : String)
    (pr : ParseConflictsResult) (hp : s.mergedPath = some p) (hpne : p ≠ "")
    (hparse : parseConflicts fresh = .ok pr) :
    (∀ c ∈ s.conflicts, c.resolved = true →
      c ∈ (reloadMergedFile s fresh).conflicts) ∧
    (∀ c ∈ pr.conflicts, c ∈ (reloadMergedFile s fresh).conflicts) ∧
    (reloadMergedFile s fresh).resolvedReplacements =
      s.resolvedReplacements := by
  have heq : (reloadMergedFile s fresh).conflicts =
      pr.conflicts ++ s.conflicts.filter (·.resolved) ∧
      (reloadMergedFile s fresh).resolvedReplacements =
        s.resolvedReplacements := by
    unfold reloadMergedFile
    rw [hp]
    dsimp only
    rw [if_neg hpne, hparse]
    exact ⟨rfl, rfl⟩
  refine ⟨?_, ?_, heq.2⟩
  · intro c hc hres
    rw [heq.1]
    exact List.mem_append.2 (Or.inr (List.mem_filter.2 ⟨hc, hres⟩))
  · intro c hc
    rw [heq.1]
    exact List.mem_append.2 (Or.inl hc)

/-- The prior state of the reload scenario (Scenario C): two conflicts, the
first resolved via `acceptLocal`. -/
def reloadScenarioPrior : MergeState := acceptLocal twoConflictState 0

/-- The reloaded file contents: only the second marker block remains. -/
def reloadScenarioFresh : String :=
  "a\nX\nb\n<<<<<<< LOCAL\nP\n=======\nQ\n>>>>>>> REMOTE\nc\n"

/-- The parse of `reloadScenarioFresh`: one fresh region. -/
def reloadScenarioParse : ParseConflictsResult :=
  ⟨[⟨0, 3, 4, 5, none, none, 6, 7, 7, "P", none, "Q", false⟩], true, 1⟩

/-- Witness for C6: Scenario C concretely. -/
theorem C6_witness :
    (reloadMergedFile reloadScenarioPrior
      reloadScenarioFresh).resolvedReplacements =
      reloadScenarioPrior.resolvedReplacements ∧
    reloadScenarioPrior.conflicts.headI ∈
      (reloadMergedFile reloadScenarioPrior reloadScenarioFresh).conflicts := by
  have h := C6_reload_preserves reloadScenarioPrior reloadScenarioFresh
    "/tmp/merged" reloadScenarioParse (by decide) (by decide) rfl
  exact ⟨h.2.2, h.1 reloadScenarioPrior.conflicts.headI (by decide) (by decide)⟩

/-! ## Splice lemmas and the accept frame property -/

theorem resolveConflictInContent_splitLines (mc : String) (c : ConflictRegion)
    (repl : String)
    (hne : (splitLines mc).take c.startLine ++
      (if repl = "" then [] else splitLines repl) ++
      (splitLines mc).drop (c.endLine + 1) ≠ []) :
    splitLines (resolveConflictInContent mc c repl) =
      (splitLines mc).take c.startLine ++
        (if repl = "" then [] else splitLines repl) ++
        (splitLines mc).drop (c.endLine + 1) := by
  unfold resolveConflictInContent
  apply splitLines_joinLines _ hne
  intro l hl
  rcases List.mem_append.1 hl with hl | hl
  · rcases List.mem_append.1 hl with hl | hl
    · exact lineNoNL_of_mem_splitLines mc l (List.mem_of_mem_take hl)
    · split at hl
      · simp at hl
      · exact lineNoNL_of_mem_splitLines repl l hl
  · exact lineNoNL_of_mem_splitLines mc l (List.mem_of_mem_drop hl)

theorem splice_ne_nil (lines repl' : List String) (sL eL : Nat)
    (hside : 0 < sL ∨ eL + 1 < lines.length) (hel : eL < lines.length) :
    lines.take sL ++ repl' ++ lines.drop (eL + 1) ≠ [] := by
  intro hcon
  rcases List.append_eq_nil.1 hcon with ⟨h1, h3⟩
  rcases List.append_eq_nil.1 h1 with ⟨htake, -⟩
  rcases hside with hs | hs
  · have hlt : (lines.take sL).length = min sL lines.length :=
      List.length_take sL lines
    rw [htake] at hlt
    simp only [List.length_nil] at hlt
    omega
  · have hld : (lines.drop (eL + 1)).length = lines.length - (eL + 1) :=
      List.length_drop (eL + 1) lines
    rw [h3] at hld
    simp only [List.length_nil] at hld
    omega

theorem splice_prefix_suffix (lines repl' : List String) (sL eL : Nat)
    (hse : sL ≤ eL) (hel : eL < lines.length) :
    (lines.take sL ++ repl' ++ lines.drop (eL + 1)).take sL = lines.take sL ∧
    (lines.take sL ++ repl' ++ lines.drop (eL + 1)).drop (sL + repl'.length) =
      lines.drop (eL + 1) := by
  have hlen : (lines.take sL).length = sL := by
    rw [List.length_take]
    omega
  constructor
  · rw [List.append_assoc]
    have h1 := List.take_left (lines.take sL) (repl' ++ lines.drop (eL + 1))
    rw [hlen] at h1
    exact h1
  · have h2 := List.drop_left (lines.take sL ++ repl') (lines.drop (eL + 1))
    rw [List.length_append, hlen] at h2
    exact h2

/-- The frame property of a single accept action whose replacement is
`f c`: the lines strictly before `startLine` and strictly after `endLine`
survive unchanged, the only region change is the target's `resolved` flag,
the only replacement-map change is the target id's entry, `isDirty` is set,
and every other state field is untouched.  The last hypothesis rules out the
degenerate splice where the whole document is the region and the replacement
is empty (there the new document is the single empty line `""`). -/
def AcceptFrameSpec (f : ConflictRegion → String)
    (op : MergeState → Nat → MergeState) : Prop :=
  ∀ (s : MergeState) (conflictId : Nat) (mc : String) (c : ConflictRegion),
    s.mergedContent = some mc → mc ≠ "" →
    s.conflicts.find? (fun d => d.id == conflictId) = some c →
    c.resolved = false →
    c.startLine ≤ c.endLine → c.endLine < (splitLines mc).length →
    (0 < c.startLine ∨ c.endLine + 1 < (splitLines mc).length) →
    ∃ mc', (op s conflictId).mergedContent = some mc' ∧
      (splitLines mc').take c.startLine = (splitLines mc).take c.startLine ∧
      (splitLines mc').drop (c.startLine +
        (if f c = "" then [] else splitLines (f c)).length) =
        (splitLines mc).drop (c.endLine + 1) ∧
      (op s conflictId).localContent = s.localContent ∧
      (op s conflictId).remoteContent = s.remoteContent ∧
      (op s conflictId).baseContent = s.baseContent ∧
      (op s conflictId).mergedPath = s.mergedPath ∧
      (op s conflictId).language = s.language ∧
      (op s conflictId).localLabel = s.localLabel ∧
      (op s conflictId).remoteLabel = s.remoteLabel ∧
      (op s conflictId).currentConflictIndex = s.currentConflictIndex ∧
      (op s conflictId).conflicts = s.conflicts.map (fun d =>
        if d.id == conflictId then { d with resolved := true } else d) ∧
      rrGet (op s conflictId).resolvedReplacements conflictId = some (f c) ∧
      (∀ k, k ≠ conflictId →
        rrGet (op s conflictId).resolvedReplacements k =
          rrGet s.resolvedReplacements k) ∧
      (op s conflictId).isDirty = true

theorem acceptConflict_frame (f : ConflictRegion → String) :
    AcceptFrameSpec f (fun s conflictId => acceptConflict s conflictId f) := by
  intro s conflictId mc c hm hmc hf hres hse hel hside
  dsimp only
  have heq := acceptConflict_fires s conflictId f mc c hm hmc hf hres
  have hnn := splice_ne_nil (splitLines mc)
    (if f c = "" then [] else splitLines (f c)) c.startLine c.endLine hside hel
  have hsplit := resolveConflictInContent_splitLines mc c (f c) hnn
  have hps := splice_prefix_suffix (splitLines mc)
    (if f c = "" then [] else splitLines (f c)) c.startLine c.endLine hse hel
  refine ⟨resolveConflictInContent mc c (f c), ?_, ?_, ?_, ?_, ?_, ?_, ?_, ?_,
    ?_, ?_, ?_, ?_, ?_, ?_, ?_⟩
  · rw [heq]
  · rw [hsplit]
    exact hps.1
  · rw [hsplit]
    exact hps.2
  · rw [heq]
  · rw [heq]
  · rw [heq]
  · rw [heq]
  · rw [heq]
  · rw [heq]
  · rw [heq]
  · rw [heq]
  · rw [heq]
    rfl
  · rw [heq]
    exact rrGet_rrSet_self s.resolvedReplacements conflictId (f c)
  · intro k hk
    rw [heq]
    exact rrGet_rrSet_ne s.resolvedReplacements conflictId k (f c) hk
  · rw [heq]

/-- **C10.**  Every accept operation applied to a valid unresolved region
changes only the spliced span of the merged content (lines strictly before
`startLine` and strictly after `endLine` are preserved), the target region's
`resolved` flag, the target id's `resolvedReplacements` entry, `allResolved`
and `isDirty`; the content fields, `mergedPath`, labels, language, cursor,
other replacement entries and every other region are untouched. -/
theorem C10_accept_frame :
    AcceptFrameSpec (fun c => c.localContent) acceptLocal ∧
    AcceptFrameSpec (fun c => c.remoteContent) acceptRemote ∧
    AcceptFrameSpec (fun c => joinLines (([c.localContent,
      c.remoteContent]).filter (fun x => x.length > 0))) acceptBoth :=
  ⟨acceptConflict_frame _, acceptConflict_frame _, acceptConflict_frame _⟩

/-- Witness for C10: `acceptLocal` on the Scenario A region keeps the
surrounding lines, path, and sibling data. -/
theorem C10_witness :
    (acceptLocal scenarioAState 0).isDirty = true ∧
    (acceptLocal scenarioAState 0).mergedPath = scenarioAState.mergedPath ∧
    rrGet (acceptLocal scenarioAState 0).resolvedReplacements 0 = some "X" := by
  obtain ⟨mc', h1, h2, h3, h4, h5, h6, h7, h8, h9, h10, h11, h12, h13, h14,
    h15⟩ := C10_accept_frame.1 scenarioAState 0 scenarioADoc scenarioARegion
      (by decide) (by decide) (by decide) (by decide) (by decide) (by decide)
      (by decide)
  exact ⟨h15, h7, h13⟩

/-! ## Revert lemmas and C3 -/

theorem revertConflict_noop_unresolved (s : MergeState) (conflictId : Nat)
    (c : ConflictRegion)
    (hf : s.conflicts.find? (fun d => d.id == conflictId) = some c)
    (hdis : c.resolved = false ∨
      rrGet s.resolvedReplacements conflictId = none) :
    revertConflict s conflictId = s := by
  unfold revertConflict
  cases hm : s.mergedContent with
  | none => rfl
  | some mc =>
    by_cases hmc : mc = ""
    · simp [hmc]
    · rcases hdis with hdis | hdis
      · simp [hmc, hf, hdis]
      · cases hcres : c.resolved with
        | false => simp [hmc, hf, hcres]
        | true => simp [hmc, hf, hcres, hdis]

theorem revertConflict_noop_nomatch (s : MergeState) (conflictId : Nat)
    (mc : String) (c : ConflictRegion) (repl : String)
    (hm : s.mergedContent = some mc) (hmc : mc ≠ "")
    (hf : s.conflicts.find? (fun d => d.id == conflictId) = some c)
    (hres : c.resolved = true)
    (hr : rrGet s.resolvedReplacements conflictId = some repl)
    (hrun : findRunFrom (splitLines mc) (splitLines repl) 0 = none) :
    revertConflict s conflictId = s := by
  unfold revertConflict
  rw [hm]
  simp [hmc, hf, hres, hr, hrun]

theorem revertConflict_fires (s : MergeState) (conflictId : Nat)
    (mc : String) (c : ConflictRegion) (repl : String) (i : Nat)
    (hm : s.mergedContent = some mc) (hmc : mc ≠ "")
    (hf : s.conflicts.find? (fun d => d.id == conflictId) = some c)
    (hres : c.resolved = true)
    (hr : rrGet s.resolvedReplacements conflictId = some repl)
    (hrun : findRunFrom (splitLines mc) (splitLines repl) 0 = some i) :
    revertConflict s conflictId =
      { s with
        mergedContent := some (joinLines ((splitLines mc).take i ++
          splitLines (revertMarkerText c) ++
          (splitLines mc).drop (i + (splitLines repl).length)))
        conflicts := s.conflicts.map (fun d =>
          if d.id == conflictId then { d with resolved := false } else d)
        resolvedReplacements := rrRemove s.resolvedReplacements conflictId
        allResolved := checkAllResolved (s.conflicts.map (fun d =>
          if d.id == conflictId then { d with resolved := false } else d))
        isDirty := true } := by
  unfold revertConflict
  rw [hm]
  simp [hmc, hf, hres, hr, hrun]

/-- **C3.**  `revertConflict` is a no-op when the found region is not
resolved or has no recorded replacement.  Otherwise it searches for the
first (topmost) run of lines equal to the stored replacement's line
sequence: if none exists the whole state is unchanged (the region stays
resolved); if the first match is at line `i` (no earlier line matches),
exactly that run is replaced by the reconstructed two-way marker block
(`<<<<<<< LOCAL`, the local lines, `=======`, the remote lines,
`>>>>>>> REMOTE` — no base side), the region's `resolved` flag is cleared
and its replacement entry removed, `allResolved` is recomputed and
`isDirty` set, with all other fields untouched. -/
theorem C3_revert_correct (s : MergeState) (conflictId : Nat) :
    (∀ c, s.conflicts.find? (fun d => d.id == conflictId) = some c →
      (c.resolved = false ∨ rrGet s.resolvedReplacements conflictId = none) →
      revertConflict s conflictId = s) ∧
    (∀ mc c repl, s.mergedContent = some mc → mc ≠ "" →
      s.conflicts.find? (fun d => d.id == conflictId) = some c →
      c.resolved = true →
      rrGet s.resolvedReplacements conflictId = some repl →
      (findRunFrom (splitLines mc) (splitLines repl) 0 = none →
        revertConflict s conflictId = s ∧ c.resolved = true) ∧
      (∀ i, findRunFrom (splitLines mc) (splitLines repl) 0 = some i →
        matchesAt (splitLines mc) (splitLines repl) i = true ∧
        (∀ j, j < i →
          matchesAt (splitLines mc) (splitLines repl) j = false) ∧
        revertConflict s conflictId =
          { s with
            mergedContent := some (joinLines ((splitLines mc).take i ++
              ("<<<<<<< LOCAL" :: (splitLines c.localContent ++
                ("=======" :: (splitLines c.remoteContent ++
                  [">>>>>>> REMOTE"])))) ++
              (splitLines mc).drop (i + (splitLines repl).length)))
            conflicts := s.conflicts.map (fun d =>
              if d.id == conflictId then { d with resolved := false } else d)
            resolvedReplacements := rrRemove s.resolvedReplacements conflictId
            allResolved := checkAllResolved (s.conflicts.map (fun d =>
              if d.id == conflictId then { d with resolved := false } else d))
            isDirty := true })) := by
  constructor
  · intro c hf hdis
    exact revertConflict_noop_unresolved s conflictId c hf hdis
  · intro mc c repl hm hmc hf hres hr
    constructor
    · intro hrun
      exact ⟨revertConflict_noop_nomatch s conflictId mc c repl hm hmc hf
        hres hr hrun, hres⟩
    · intro i hrun
      obtain ⟨-, -, hmatch, hmin⟩ :=
        (findRunFrom_eq_some_iff (splitLines mc) (splitLines repl) 0 i).1 hrun
      have heq := revertConflict_fires s conflictId mc c repl i hm hmc hf
        hres hr hrun
      rw [splitLines_revertMarkerText c] at heq
      exact ⟨hmatch, fun j hj => hmin j (Nat.zero_le j) hj, heq⟩

/-- Witness for C3: reverting the accepted Scenario A region restores the
original document text (labels included, since they were already `LOCAL` /
`REMOTE`). -/
theorem C3_witness :
    (revertConflict (acceptLocal scenarioAState 0) 0).mergedContent =
      some scenarioADoc := by
  obtain ⟨-, -, heq⟩ :=
    ((C3_revert_correct (acceptLocal scenarioAState 0) 0).2 "a\nX\nb\n"
      ⟨0, 1, 2, 3, none, none, 4, 5, 5, "X", none, "Y", true⟩ "X"
      (by decide) (by decide) (by decide) (by decide) (by decide)).2 1
      (by decide)
  rw [heq]
  decide

/-! ## Decoration-range lemmas and C5 -/

theorem findReplacementLineRange_spec (contentLines : List String)
    (replacement : String) (searchFrom s e n : Nat)
    (h : findReplacementLineRange contentLines replacement searchFrom =
      some (s, e, n)) :
    searchFrom + 1 ≤ s ∧ s ≤ e ∧ n = e := by
  simp only [findReplacementLineRange] at h
  split at h
  · exact absurd h (by simp)
  · rename_i hlen
    cases hrun : findRunFrom contentLines (splitLines replacement)
        searchFrom with
    | none => rw [hrun] at h; exact absurd h (by simp)
    | some i =>
      rw [hrun] at h
      obtain ⟨h1, -, -, -⟩ :=
        (findRunFrom_eq_some_iff contentLines (splitLines replacement)
          searchFrom i).1 hrun
      injection h with h
      simp only [Prod.mk.injEq] at h
      obtain ⟨hs, he, hn⟩ := h
      have hpos : 0 < (splitLines replacement).length :=
        List.length_pos.2 (splitLines_ne_nil replacement)
      omega

theorem resolvedRangesLoop_bound (rr : List (Nat × String))
    (contentLines : List String) :
    ∀ (conflicts : List ConflictRegion) (k : Nat) (p : Nat × Nat),
      p ∈ resolvedRangesLoop rr contentLines conflicts k →
      k + 1 ≤ p.1 ∧ p.1 ≤ p.2 := by
  intro conflicts
  induction conflicts with
  | nil => intro k p hp; simp [resolvedRangesLoop] at hp
  | cons c rest ih =>
    intro k p hp
    simp only [resolvedRangesLoop] at hp
    split at hp
    · cases hr : rrGet rr c.id with
      | none =>
        rw [hr] at hp
        dsimp only at hp
        exact ih k p hp
      | some repl =>
        rw [hr] at hp
        dsimp only at hp
        cases hfind : findReplacementLineRange contentLines repl k with
        | none =>
          rw [hfind] at hp
          dsimp only at hp
          exact ih k p hp
        | some t =>
          obtain ⟨s, e, n⟩ := t
          rw [hfind] at hp
          dsimp only at hp
          obtain ⟨h1, h2, h3⟩ :=
            findReplacementLineRange_spec contentLines repl k s e n hfind
          rcases List.mem_cons.1 hp with rfl | hp
          · exact ⟨h1, h2⟩
          · obtain ⟨hb1, hb2⟩ := ih n p hp
            subst h3
            omega
    · exact ih k p hp

theorem resolvedRangesLoop_pairwise (rr : List (Nat × String))
    (contentLines : List String) :
    ∀ (conflicts : List ConflictRegion) (k : Nat),
      List.Pairwise (fun a b : Nat × Nat => a.2 < b.1)
        (resolvedRangesLoop rr contentLines conflicts k) := by
  intro conflicts
  induction conflicts with
  | nil => intro k; simp [resolvedRangesLoop]
  | cons c rest ih =>
    intro k
    simp only [resolvedRangesLoop]
    split
    · cases hr : rrGet rr c.id with
      | none => exact ih k
      | some repl =>
        dsimp only
        cases hfind : findReplacementLineRange contentLines repl k with
        | none => exact ih k
        | some t =>
          obtain ⟨s, e, n⟩ := t
          obtain ⟨h1, h2, h3⟩ :=
            findReplacementLineRange_spec contentLines repl k s e n hfind
          dsimp only
          rw [List.pairwise_cons]
          refine ⟨fun q hq => ?_, ih n⟩
          obtain ⟨hb1, -⟩ := resolvedRangesLoop_bound rr contentLines rest n
            q hq
          subst h3
          omega
    · exact ih k

/-- **C5.**  The highlight ranges the RangeLocator computes for resolved
regions are pairwise disjoint and strictly increasing (each range starts
after the previous range's last line, because the search cursor only moves
forward past every match), every range is well-formed (`start ≤ end`), and a
resolved region whose replacement is not found from the cursor onward
contributes no range. -/
theorem C5_ranges_disjoint (conflicts : List ConflictRegion)
    (rr : List (Nat × String)) (contentLines : List String) :
    List.Pairwise (fun a b : Nat × Nat => a.2 < b.1)
      (resolvedRanges conflicts rr contentLines) ∧
    (∀ p ∈ resolvedRanges conflicts rr contentLines, p.1 ≤ p.2) ∧
    (∀ (c : ConflictRegion) (rest : List ConflictRegion) (k : Nat)
      (repl : String), c.resolved = true → rrGet rr c.id = some repl →
      findReplacementLineRange contentLines repl k = none →
      resolvedRangesLoop rr contentLines (c :: rest) k =
        resolvedRangesLoop rr contentLines rest k) := by
  refine ⟨resolvedRangesLoop_pairwise rr contentLines conflicts 0,
    fun p hp => (resolvedRangesLoop_bound rr contentLines conflicts 0 p hp).2,
    fun c rest k repl hres hr hfind => ?_⟩
  simp only [resolvedRangesLoop, hres, hr, hfind]
  simp

/-- The state after resolving both conflicts of `twoConflictDoc` in
descending order (so the second accept's stale line numbers are harmless). -/
def bothAcceptedState : MergeState :=
  acceptLocal (acceptLocal twoConflictState 1) 0

/-- Witness for C5: the two ranges on the fully resolved two-conflict file
are `[(2, 2), (4, 4)]` — disjoint and increasing. -/
theorem C5_witness :
    resolvedRanges bothAcceptedState.conflicts
      bothAcceptedState.resolvedReplacements
      (splitLines "a\nX\nb\nP\nc\n") = [(2, 2), (4, 4)] ∧
    List.Pairwise (fun a b : Nat × Nat => a.2 < b.1)
      (resolvedRanges bothAcceptedState.conflicts
        bothAcceptedState.resolvedReplacements
        (splitLines "a\nX\nb\nP\nc\n")) :=
  ⟨by decide, (C5_ranges_disjoint _ _ _).1⟩

/-! ## Navigation lemmas and C9 -/

/-- The indices of the unresolved regions, in increasing order: the
specification-level reading of the store's `unresolvedIndices` computation
(which goes through the `-1` sentinel in JS numbers). -/
def unresolvedIdxNat (conflicts : List ConflictRegion) : List Nat :=
  (List.range conflicts.length).filter
    (fun i => !((conflicts.getD i default).resolved))

theorem mapIdx_filter_bridge (conflicts : List ConflictRegion) :
    ∀ k : Nat, ((conflicts.mapIdx (fun i c =>
      if !c.resolved then ((i + k : Nat) : Int) else -1)).filter
      (fun i => decide ((0 : Int) ≤ i))) =
      (unresolvedIdxNat conflicts).map (fun n => Int.ofNat (n + k)) := by
  induction conflicts with
  | nil => intro k; simp [unresolvedIdxNat]
  | cons c cs ih =>
    intro k
    rw [List.mapIdx_cons]
    have hshift : (List.mapIdx (fun i d =>
        if !d.resolved then ((i + 1 + k : Nat) : Int) else -1) cs) =
        (List.mapIdx (fun i d =>
          if !d.resolved then ((i + (k + 1) : Nat) : Int) else -1) cs) := by
      congr 1
      funext i d
      congr 2
      omega
    have hrhs : unresolvedIdxNat (c :: cs) =
        (if !c.resolved then [0] else []) ++
          (unresolvedIdxNat cs).map Nat.succ := by
      unfold unresolvedIdxNat
      rw [List.length_cons, List.range_succ_eq_map, List.filter_cons]
      rw [List.filter_map]
      have hpred : ((fun i => !(((c :: cs).getD i default).resolved)) ∘
          Nat.succ) = (fun i => !((cs.getD i default).resolved)) := by
        funext i
        simp [Function.comp, List.getD_cons_succ]
      rw [hpred]
      cases hres : c.resolved with
      | false => simp [List.getD_cons_zero, hres]
      | true => simp [List.getD_cons_zero, hres]
    rw [hrhs]
    cases hres : c.resolved with
    | false =>
      rw [List.filter_cons, hshift, ih (k + 1)]
      rw [show (if (!false) = true then ((0 + k : Nat) : Int) else -1) =
        ((0 + k : Nat) : Int) from rfl]
      rw [show (if (!false) = true then ([0] : List Nat) else []) = [0]
        from rfl]
      rw [if_pos (show (decide ((0 : Int) ≤ ((0 + k : Nat) : Int))) = true
        from by simp)]
      simp only [List.map_append, List.map_map, List.map_cons, List.map_nil,
        List.singleton_append, Int.ofNat_eq_natCast, List.cons.injEq]
      refine ⟨by simp, ?_⟩
      apply List.map_congr_left
      intro a ha
      simp only [Function.comp_apply, Nat.succ_eq_add_one]
      push_cast
      ring
    | true =>
      rw [List.filter_cons, hshift, ih (k + 1)]
      rw [show (if (!true) = true then ((0 + k : Nat) : Int) else -1) =
        (-1 : Int) from rfl]
      rw [show (if (!true) = true then ([0] : List Nat) else []) = []
        from rfl]
      rw [if_neg (show ¬ (decide ((0 : Int) ≤ (-1 : Int))) = true
        from by decide)]
      simp only [List.nil_append, List.map_map, Int.ofNat_eq_natCast]
      apply List.map_congr_left
      intro a ha
      simp only [Function.comp_apply, Nat.succ_eq_add_one]
      push_cast
      ring

theorem mapIdx_filter_bridge0 (conflicts : List ConflictRegion) :
    ((conflicts.mapIdx (fun i c =>
      if !c.resolved then (i : Int) else -1)).filter
      (fun i => decide ((0 : Int) ≤ i))) =
      (unresolvedIdxNat conflicts).map Int.ofNat := by
  have h := mapIdx_filter_bridge conflicts 0
  have hfun : (fun (i : Nat) (c : ConflictRegion) =>
      if !c.resolved then ((i + 0 : Nat) : Int) else -1) =
      (fun (i : Nat) (c : ConflictRegion) =>
        if !c.resolved then (i : Int) else -1) := by
    funext i c
    simp
  rw [hfun] at h
  rw [h]
  apply List.map_congr_left
  intro n hn
  simp [Int.ofNat_eq_natCast]

theorem mem_unresolvedIdxNat (conflicts : List ConflictRegion) (t : Nat) :
    t ∈ unresolvedIdxNat conflicts ↔
      ∃ c, conflicts[t]? = some c ∧ c.resolved = false := by
  unfold unresolvedIdxNat
  rw [List.mem_filter, List.mem_range]
  constructor
  · rintro ⟨hlt, hpred⟩
    obtain ⟨c, hc⟩ : ∃ c, conflicts[t]? = some c :=
      ⟨conflicts[t], List.getElem?_eq_getElem hlt⟩
    refine ⟨c, hc, ?_⟩
    rw [List.getD_eq_getElem?_getD, hc] at hpred
    simpa using hpred
  · rintro ⟨c, hc, hres⟩
    have hlt : t < conflicts.length := by
      rcases List.getElem?_eq_some.1 hc with ⟨h, -⟩
      exact h
    refine ⟨hlt, ?_⟩
    rw [List.getD_eq_getElem?_getD, hc]
    simp [hres]

theorem unresolvedIdxNat_pairwise (conflicts : List ConflictRegion) :
    List.Pairwise (· < ·) (unresolvedIdxNat conflicts) :=
  List.Pairwise.sublist (List.filter_sublist _)
    (List.pairwise_lt_range conflicts.length)

theorem unresolvedIdxNat_eq_nil (conflicts : List ConflictRegion)
    (h : ∀ c ∈ conflicts, c.resolved = true) :
    unresolvedIdxNat conflicts = [] := by
  unfold unresolvedIdxNat
  rw [List.filter_eq_nil_iff]
  intro i hi
  rw [List.mem_range] at hi
  obtain ⟨c, hc⟩ : ∃ c, conflicts[i]? = some c :=
    ⟨conflicts[i], List.getElem?_eq_getElem hi⟩
  rw [List.getD_eq_getElem?_getD, hc]
  simp [h c (List.getElem?_mem hc)]

theorem find?_eq_some_split {α : Type _} {p : α → Bool} :
    ∀ {l : List α} {a : α}, l.find? p = some a →
      ∃ l1 l2, l = l1 ++ a :: l2 ∧ (∀ x ∈ l1, p x = false) ∧ p a = true := by
  intro l
  induction l with
  | nil => intro a h; simp at h
  | cons b t ih =>
    intro a h
    rw [List.find?_cons] at h
    cases hb : p b with
    | true =>
      rw [hb] at h
      injection h with h
      subst h
      exact ⟨[], t, rfl, by simp, hb⟩
    | false =>
      rw [hb] at h
      obtain ⟨l1, l2, rfl, hl1, ha⟩ := ih h
      exact ⟨b :: l1, l2, rfl, by
        intro x hx
        rcases List.mem_cons.1 hx with rfl | hx
        · exact hb
        · exact hl1 x hx, ha⟩

theorem mem_le_getLast : ∀ (l : List Nat), List.Pairwise (· < ·) l →
    ∀ (hne : l ≠ []) (x : Nat), x ∈ l → x ≤ l.getLast hne := by
  intro l
  induction l with
  | nil => intro _ hne; exact absurd rfl hne
  | cons a t ih =>
    intro hp hne x hx
    cases t with
    | nil =>
      rcases List.mem_cons.1 hx with rfl | hx
      · simp [List.getLast]
      · simp at hx
    | cons b u =>
      rw [List.getLast_cons (by simp)]
      rcases List.mem_cons.1 hx with rfl | hx
      · have hlt := (List.pairwise_cons.1 hp).1
        have hmem := List.getLast_mem (l := b :: u) (by simp)
        exact le_of_lt (hlt _ hmem)
      · exact ih (List.pairwise_cons.1 hp).2 (by simp) x hx

theorem find?_int_of_nat (U : List Nat) (cursor : Nat) :
    (U.map Int.ofNat).find? (fun i => decide ((cursor : Int) < i)) =
      (U.find? (fun n => decide (cursor < n))).map Int.ofNat := by
  rw [List.find?_map]
  have hfun : ((fun i : Int => decide ((cursor : Int) < i)) ∘ Int.ofNat) =
      (fun n : Nat => decide (cursor < n)) := by
    funext n
    simp only [Function.comp_apply]
    rw [decide_eq_decide]
    exact Int.ofNat_lt
  rw [hfun]

theorem goToNextConflict_eval (s : MergeState) :
    goToNextConflict s =
      (match unresolvedIdxNat s.conflicts with
      | [] => (s, none)
      | u0 :: us =>
        let t := (((u0 :: us).find? (fun n =>
          decide (s.currentConflictIndex < n))).getD u0)
        match s.conflicts[t]? with
        | none => (s, none)
        | some c =>
          ({ s with currentConflictIndex := t }, some c.startLine)) := by
  simp only [goToNextConflict]
  rw [mapIdx_filter_bridge0]
  cases hU : unresolvedIdxNat s.conflicts with
  | nil => rfl
  | cons u0 us =>
    rw [List.map_cons]
    dsimp only
    rw [show (Int.ofNat u0 :: List.map Int.ofNat us) =
      List.map Int.ofNat (u0 :: us) from rfl]
    rw [find?_int_of_nat]
    cases hf : (u0 :: us).find? (fun n =>
        decide (s.currentConflictIndex < n)) with
    | none => rfl
    | some t => rfl

theorem find?_int_of_nat_lt (U : List Nat) (cursor : Nat) :
    (U.map Int.ofNat).find? (fun i => decide (i < (cursor : Int))) =
      (U.find? (fun n => decide (n < cursor))).map Int.ofNat := by
  rw [List.find?_map]
  have hfun : ((fun i : Int => decide (i < (cursor : Int))) ∘ Int.ofNat) =
      (fun n : Nat => decide (n < cursor)) := by
    funext n
    simp only [Function.comp_apply]
    rw [decide_eq_decide]
    exact Int.ofNat_lt
  rw [hfun]

theorem goToPrevConflict_eval (s : MergeState) :
    goToPrevConflict s =
      (match unresolvedIdxNat s.conflicts with
      | [] => (s, none)
      | u0 :: us =>
        let t := (((u0 :: us).reverse.find? (fun n =>
          decide (n < s.currentConflictIndex))).getD
            ((u0 :: us).getLast (by simp)))
        match s.conflicts[t]? with
        | none => (s, none)
        | some c =>
          ({ s with currentConflictIndex := t }, some c.startLine)) := by
  simp only [goToPrevConflict]
  rw [mapIdx_filter_bridge0]
  cases hU : unresolvedIdxNat s.conflicts with
  | nil => rfl
  | cons u0 us =>
    rw [List.map_cons]
    dsimp only
    have hrev : (Int.ofNat u0 :: List.map Int.ofNat us).reverse =
        List.map Int.ofNat ((u0 :: us).reverse) := by
      show (List.map Int.ofNat (u0 :: us)).reverse = _
      rw [List.map_reverse]
    have hgl : (Int.ofNat u0 :: List.map Int.ofNat us).getLast (by simp) =
        Int.ofNat ((u0 :: us).getLast (by simp)) := by
      show (List.map Int.ofNat (u0 :: us)).getLast (by simp) = _
      rw [List.getLast_map]
    rw [hrev, find?_int_of_nat_lt, hgl]
    cases hf : (u0 :: us).reverse.find? (fun n =>
        decide (n < s.currentConflictIndex)) with
    | none => rfl
    | some t => rfl

/-- **C9.**  When no unresolved region exists, both navigation calls return
the `null` sentinel and leave the whole state (cursor included) unchanged.
When at least one exists, `goToNextConflict` moves the cursor to an
unresolved region's index `t` and returns its `startLine`, where `t` is the
first unresolved index strictly greater than the cursor, or — when none
follows — wraps to the first unresolved index; `goToPrevConflict` is the
mirror, taking the last unresolved index strictly before the cursor and
wrapping to the last unresolved index. -/
theorem C9_navigation (s : MergeState) :
    ((∀ c ∈ s.conflicts, c.resolved = true) →
      goToNextConflict s = (s, none) ∧ goToPrevConflict s = (s, none)) ∧
    ((∃ c ∈ s.conflicts, c.resolved = false) →
      (∃ t c, s.conflicts[t]? = some c ∧ c.resolved = false ∧
        goToNextConflict s =
          ({ s with currentConflictIndex := t }, some c.startLine) ∧
        ((s.currentConflictIndex < t ∧
          ∀ j, s.currentConflictIndex < j → j < t →
            j ∉ unresolvedIdxNat s.conflicts) ∨
         ((∀ j, s.currentConflictIndex < j →
            j ∉ unresolvedIdxNat s.conflicts) ∧
          ∀ j, j < t → j ∉ unresolvedIdxNat s.conflicts))) ∧
      (∃ t c, s.conflicts[t]? = some c ∧ c.resolved = false ∧
        goToPrevConflict s =
          ({ s with currentConflictIndex := t }, some c.startLine) ∧
        ((t < s.currentConflictIndex ∧
          ∀ j, t < j → j < s.currentConflictIndex →
            j ∉ unresolvedIdxNat s.conflicts) ∨
         ((∀ j, j < s.currentConflictIndex →
            j ∉ unresolvedIdxNat s.conflicts) ∧
          ∀ j, t < j → j ∉ unresolvedIdxNat s.conflicts)))) := by
  constructor
  · intro hall
    have hnil := unresolvedIdxNat_eq_nil s.conflicts hall
    constructor
    · rw [goToNextConflict_eval, hnil]
    · rw [goToPrevConflict_eval, hnil]
  · rintro ⟨c0, hc0mem, hc0res⟩
    cases hU : unresolvedIdxNat s.conflicts with
    | nil =>
      obtain ⟨n, hn⟩ := List.mem_iff_getElem?.1 hc0mem
      have : n ∈ unresolvedIdxNat s.conflicts :=
        (mem_unresolvedIdxNat s.conflicts n).2 ⟨c0, hn, hc0res⟩
      rw [hU] at this
      simp at this
    | cons u0 us =>
      have hpw : List.Pairwise (· < ·) (u0 :: us) :=
        hU ▸ unresolvedIdxNat_pairwise s.conflicts
      constructor
      · -- goToNextConflict
        have hev := goToNextConflict_eval s
        rw [hU] at hev
        dsimp only at hev
        cases hf : (u0 :: us).find? (fun n =>
            decide (s.currentConflictIndex < n)) with
        | some t =>
          rw [hf] at hev
          have htmem : t ∈ (u0 :: us) := List.mem_of_find?_eq_some hf
          obtain ⟨c, hc, hcres⟩ := (mem_unresolvedIdxNat s.conflicts t).1
            (hU ▸ htmem)
          rw [show (some t).getD u0 = t from rfl, hc] at hev
          refine ⟨t, c, hc, hcres, hev, Or.inl ⟨?_, ?_⟩⟩
          · have := List.find?_some hf
            simpa using this
          · intro j hj1 hj2 hjU
            obtain ⟨l1, l2, hsplit, hl1, -⟩ := find?_eq_some_split hf
            rw [hsplit] at hjU hpw
            rcases List.mem_append.1 hjU with hj | hj
            · have := hl1 j hj
              simp at this
              omega
            · rcases List.mem_cons.1 hj with rfl | hj
              · omega
              · have := ((List.pairwise_append.1 hpw).2.1)
                have hlt := (List.pairwise_cons.1 this).1 j hj
                omega
        | none =>
          rw [hf] at hev
          rw [show (Option.getD (none : Option Nat) u0) = u0 from rfl] at hev
          have hu0mem : u0 ∈ (u0 :: us) := List.mem_cons_self u0 us
          obtain ⟨c, hc, hcres⟩ := (mem_unresolvedIdxNat s.conflicts u0).1
            (hU ▸ hu0mem)
          rw [hc] at hev
          refine ⟨u0, c, hc, hcres, hev, Or.inr ⟨?_, ?_⟩⟩
          · intro j hj hjU
            have := List.find?_eq_none.1 hf j hjU
            simp at this
            omega
          · intro j hj hjU
            rcases List.mem_cons.1 hjU with rfl | hjU
            · omega
            · have := (List.pairwise_cons.1 hpw).1 j hjU
              omega
      · -- goToPrevConflict
        have hev := goToPrevConflict_eval s
        rw [hU] at hev
        dsimp only at hev
        have hpwrev : List.Pairwise (fun a b => b < a) ((u0 :: us).reverse) :=
          List.pairwise_reverse.2 hpw
        cases hf : (u0 :: us).reverse.find? (fun n =>
            decide (n < s.currentConflictIndex)) with
        | some t =>
          rw [hf] at hev
          have htmem : t ∈ (u0 :: us) :=
            List.mem_reverse.1 (List.mem_of_find?_eq_some hf)
          obtain ⟨c, hc, hcres⟩ := (mem_unresolvedIdxNat s.conflicts t).1
            (hU ▸ htmem)
          rw [show (some t).getD ((u0 :: us).getLast (by simp)) = t from rfl,
            hc] at hev
          refine ⟨t, c, hc, hcres, hev, Or.inl ⟨?_, ?_⟩⟩
          · have := List.find?_some hf
            simpa using this
          · intro j hj1 hj2 hjU
            have hjrev : j ∈ (u0 :: us).reverse := List.mem_reverse.2 hjU
            obtain ⟨l1, l2, hsplit, hl1, -⟩ := find?_eq_some_split hf
            rw [hsplit] at hjrev hpwrev
            rcases List.mem_append.1 hjrev with hj | hj
            · have := hl1 j hj
              simp at this
              omega
            · rcases List.mem_cons.1 hj with rfl | hj
              · omega
              · have := ((List.pairwise_append.1 hpwrev).2.1)
                have hlt := (List.pairwise_cons.1 this).1 j hj
                omega
        | none =>
          rw [hf] at hev
          rw [show (Option.getD (none : Option Nat)
            ((u0 :: us).getLast (by simp))) =
            ((u0 :: us).getLast (by simp)) from rfl] at hev
          have hlmem : (u0 :: us).getLast (by simp) ∈ (u0 :: us) :=
            List.getLast_mem (by simp)
          have hlU : (u0 :: us).getLast (by simp) ∈
              unresolvedIdxNat s.conflicts := by
            rw [hU]
            exact hlmem
          obtain ⟨c, hc, hcres⟩ := (mem_unresolvedIdxNat s.conflicts
            ((u0 :: us).getLast (by simp))).1 hlU
          rw [hc] at hev
          refine ⟨(u0 :: us).getLast (by simp), c, hc, hcres, hev,
            Or.inr ⟨?_, ?_⟩⟩
          · intro j hj hjU
            have := List.find?_eq_none.1 hf j (List.mem_reverse.2 hjU)
            simp at this
            omega
          · intro j hj hjU
            have := mem_le_getLast (u0 :: us) hpw (by simp) j hjU
            omega

/-- Witness for C9: on the freshly initialised two-conflict file (cursor 0),
`goToNextConflict` moves to index 1 and returns its `startLine` 7, and
`goToPrevConflict` (wrapping) also lands on an unresolved region. -/
theorem C9_witness :
    goToNextConflict twoConflictState =
      ({ twoConflictState with currentConflictIndex := 1 }, some 7) ∧
    (∃ t c, twoConflictState.conflicts[t]? = some c ∧ c.resolved = false ∧
      goToPrevConflict twoConflictState =
        ({ twoConflictState with currentConflictIndex := t },
          some c.startLine)) := by
  refine ⟨by decide, ?_⟩
  obtain ⟨-, hprev⟩ := (C9_navigation twoConflictState).2 (by decide)
  obtain ⟨t, c, hc, hres, heq, -⟩ := hprev
  exact ⟨t, c, hc, hres, heq⟩

/-! ## Round trip (C1) -/

/-- Replace the display labels on opening and closing marker lines by the
bare marker runs, so that two documents can be compared "except for the
marker display labels". -/
def stripMarkerLabels (content : String) : String :=
  joinLines ((splitLines content).map (fun l =>
    if isOpenMarker l then "<<<<<<<"
    else if isCloseMarker l then ">>>>>>>"
    else l))

/-- Modelled from the spec: the line list of a document consisting of a
single two-way conflict block (spec §4.1/§6 input format) surrounded by
context lines. -/
def singleConflictDoc (pre localLines remoteLines post : List String)
    (openLine closeLine : String) : List String :=
  pre ++ [openLine] ++ localLines ++ ["======="] ++ remoteLines ++
    [closeLine] ++ post

/-- Modelled from the spec: the region the backend parser (spec §4.1)
produces for `singleConflictDoc`. -/
def singleConflictRegion (pre localLines remoteLines : List String) :
    ConflictRegion :=
  ⟨0, pre.length, pre.length + 1, pre.length + 1 + localLines.length,
    none, none, pre.length + localLines.length + 2,
    pre.length + localLines.length + remoteLines.length + 2,
    pre.length + localLines.length + remoteLines.length + 2,
    joinLines localLines, none, joinLines remoteLines, false⟩

/-- Modelled from the spec: the store state after a successful `initMerge`
on `singleConflictDoc` (content loaded, the one parsed region unresolved,
no recorded replacements). -/
def singleConflictState (pre localLines remoteLines post : List String)
    (openLine closeLine : String) : MergeState :=
  { initialState with
    mergedContent := some (joinLines (singleConflictDoc pre localLines
      remoteLines post openLine closeLine))
    conflicts := [singleConflictRegion pre localLines remoteLines] }

/-- **C1 (amended).**  The round trip does hold for a document with a
*single* two-way conflict region, provided both sides are non-empty (the
local side is neither the empty line run nor the single empty line, and
the remote side is non-empty) and the local side's line run does not also
occur earlier in the document: `acceptLocal` followed by `revertConflict`
on the region's id restores the original document line for line, except
that the opening and closing marker lines come back with the default
display labels `<<<<<<< LOCAL` and `>>>>>>> REMOTE`; the region list and
the replacement record also return to their initial values.  Each side
condition excludes a real failure: with an empty remote side the
reconstruction `revertMarkerText` inserts a newline around the empty side,
producing a stray blank line the original never had; with an empty local
side the accept splices in zero lines (the falsy-empty replacement guard)
while the revert searches for the single empty line `[""]` and consumes
the wrong line.  With two or more regions the corresponding statement is
false in every accept order that resolves a region above another
not-yet-resolved one (`C1_counterexample`): `reParseAndPreserveResolved`
never actually re-parses, so later accepts splice stale line ranges. -/
theorem C1_roundtrip_single (pre localLines remoteLines post : List String)
    (openLine closeLine : String)
    (hpre : ∀ l ∈ pre, lineNoNL l) (hlocal : ∀ l ∈ localLines, lineNoNL l)
    (hremote : ∀ l ∈ remoteLines, lineNoNL l) (hpost : ∀ l ∈ post, lineNoNL l)
    (hopen : lineNoNL openLine) (hclose : lineNoNL closeLine)
    (hlne : localLines ≠ []) (hlne2 : localLines ≠ [""])
    (hrne : remoteLines ≠ [])
    (hfirst : ∀ j, j < pre.length →
      matchesAt (pre ++ localLines ++ post) localLines j = false) :
    (revertConflict (acceptLocal (singleConflictState pre localLines
      remoteLines post openLine closeLine) 0) 0).mergedContent =
      some (joinLines (pre ++ ["<<<<<<< LOCAL"] ++ localLines ++
        ["======="] ++ remoteLines ++ [">>>>>>> REMOTE"] ++ post)) ∧
    (revertConflict (acceptLocal (singleConflictState pre localLines
      remoteLines post openLine closeLine) 0) 0).conflicts =
      [singleConflictRegion pre localLines remoteLines] ∧
    (revertConflict (acceptLocal (singleConflictState pre localLines
      remoteLines post openLine closeLine) 0) 0).resolvedReplacements
      = [] := by
  have hllen : 0 < localLines.length := List.length_pos.2 hlne
  have hrlen : 0 < remoteLines.length := List.length_pos.2 hrne
  -- the original document
  have hDnn : ∀ l ∈ singleConflictDoc pre localLines remoteLines post
      openLine closeLine, lineNoNL l := by
    intro l hl
    simp only [singleConflictDoc, List.mem_append, List.mem_singleton] at hl
    rcases hl with ((((((hl | hl) | hl) | hl) | hl) | hl) | hl)
    · exact hpre l hl
    · subst hl; exact hopen
    · exact hlocal l hl
    · subst hl; decide
    · exact hremote l hl
    · subst hl; exact hclose
    · exact hpost l hl
  have hDlen : (singleConflictDoc pre localLines remoteLines post openLine
      closeLine).length = pre.length + localLines.length +
      remoteLines.length + post.length + 3 := by
    simp only [singleConflictDoc, List.length_append, List.length_cons,
      List.length_nil]
    omega
  have hDne : singleConflictDoc pre localLines remoteLines post openLine
      closeLine ≠ [] := by
    intro h
    have h2 := congrArg List.length h
    rw [hDlen] at h2
    simp at h2
  have hDne2 : singleConflictDoc pre localLines remoteLines post openLine
      closeLine ≠ [""] := by
    intro h
    have h2 := congrArg List.length h
    rw [hDlen] at h2
    simp at h2
  have hmcne : joinLines (singleConflictDoc pre localLines remoteLines post
      openLine closeLine) ≠ "" := joinLines_ne_empty _ hDne hDne2
  have hsplitD : splitLines (joinLines (singleConflictDoc pre localLines
      remoteLines post openLine closeLine)) = singleConflictDoc pre
      localLines remoteLines post openLine closeLine :=
    splitLines_joinLines _ hDne hDnn
  -- the accept step
  have hrepl_ne : joinLines localLines ≠ "" :=
    joinLines_ne_empty _ hlne hlne2
  have hrepl_split : splitLines (joinLines localLines) = localLines :=
    splitLines_joinLines _ hlne hlocal
  have hremote_split : splitLines (joinLines remoteLines) = remoteLines :=
    splitLines_joinLines _ hrne hremote
  have hfind0 : (singleConflictState pre localLines remoteLines post
      openLine closeLine).conflicts.find? (fun c => c.id == 0) =
      some (singleConflictRegion pre localLines remoteLines) := rfl
  have haccept := acceptConflict_fires (singleConflictState pre localLines
    remoteLines post openLine closeLine) 0
    (fun conflict => conflict.localContent)
    (joinLines (singleConflictDoc pre localLines remoteLines post openLine
      closeLine))
    (singleConflictRegion pre localLines remoteLines) rfl hmcne hfind0 rfl
  have htake : (singleConflictDoc pre localLines remoteLines post openLine
      closeLine).take pre.length = pre := by
    rw [show singleConflictDoc pre localLines remoteLines post openLine
      closeLine = pre ++ ([openLine] ++ (localLines ++ (["======="] ++
        (remoteLines ++ ([closeLine] ++ post))))) from by
      simp [singleConflictDoc, List.append_assoc]]
    exact List.take_left pre _
  have hdrop : (singleConflictDoc pre localLines remoteLines post openLine
      closeLine).drop ((singleConflictRegion pre localLines
        remoteLines).endLine + 1) = post := by
    rw [show singleConflictDoc pre localLines remoteLines post openLine
      closeLine = (pre ++ [openLine] ++ localLines ++ ["======="] ++
        remoteLines ++ [closeLine]) ++ post from by
      simp [singleConflictDoc, List.append_assoc]]
    rw [show (singleConflictRegion pre localLines remoteLines).endLine + 1 =
      (pre ++ [openLine] ++ localLines ++ ["======="] ++ remoteLines ++
        [closeLine]).length from by
      simp only [singleConflictRegion, List.length_append, List.length_cons,
        List.length_nil]
      omega]
    exact List.drop_left _ _
  have hnewContent : resolveConflictInContent (joinLines (singleConflictDoc
      pre localLines remoteLines post openLine closeLine))
      (singleConflictRegion pre localLines remoteLines)
      (joinLines localLines) = joinLines (pre ++ localLines ++ post) := by
    simp only [resolveConflictInContent]
    rw [hsplitD, if_neg hrepl_ne, hrepl_split]
    rw [show (singleConflictRegion pre localLines remoteLines).startLine =
      pre.length from rfl]
    rw [htake, hdrop]
  -- the state after the accept
  have hm1 : (acceptLocal (singleConflictState pre localLines remoteLines
      post openLine closeLine) 0).mergedContent =
      some (joinLines (pre ++ localLines ++ post)) := by
    show (acceptConflict (singleConflictState pre localLines remoteLines
      post openLine closeLine) 0
      (fun conflict => conflict.localContent)).mergedContent = _
    rw [haccept]
    exact congrArg some hnewContent
  have hfind1 : (acceptLocal (singleConflictState pre localLines
      remoteLines post openLine closeLine) 0).conflicts.find?
      (fun c => c.id == 0) = some { singleConflictRegion pre localLines
        remoteLines with resolved := true } := by
    show (acceptConflict (singleConflictState pre localLines remoteLines
      post openLine closeLine) 0
      (fun conflict => conflict.localContent)).conflicts.find?
      (fun c => c.id == 0) = _
    rw [haccept]
    dsimp only
    rw [find?_reParse, hfind0]
    rfl
  have hrget : rrGet (acceptLocal (singleConflictState pre localLines
      remoteLines post openLine closeLine) 0).resolvedReplacements 0 =
      some (joinLines localLines) := by
    show rrGet (acceptConflict (singleConflictState pre localLines
      remoteLines post openLine closeLine) 0
      (fun conflict => conflict.localContent)).resolvedReplacements 0 = _
    rw [haccept]
    rfl
  -- the content after the accept
  have hcontent1nn : ∀ l ∈ pre ++ localLines ++ post, lineNoNL l := by
    intro l hl
    simp only [List.mem_append] at hl
    rcases hl with (hl | hl) | hl
    · exact hpre l hl
    · exact hlocal l hl
    · exact hpost l hl
  have hcontent1ne : pre ++ localLines ++ post ≠ [] := by
    intro h
    rcases List.append_eq_nil.1 h with ⟨h1, -⟩
    rcases List.append_eq_nil.1 h1 with ⟨-, h2⟩
    exact hlne h2
  have hcontent1ne2 : pre ++ localLines ++ post ≠ [""] := by
    intro h
    have hlen := congrArg List.length h
    simp only [List.length_append, List.length_cons, List.length_nil] at hlen
    have hpre0 : pre.length = 0 := by omega
    have hpost0 : post.length = 0 := by omega
    rw [List.length_eq_zero] at hpre0 hpost0
    rw [hpre0, hpost0] at h
    simp at h
    exact hlne2 h
  have hmc1ne : joinLines (pre ++ localLines ++ post) ≠ "" :=
    joinLines_ne_empty _ hcontent1ne hcontent1ne2
  have hsplit1 : splitLines (joinLines (pre ++ localLines ++ post)) =
      pre ++ localLines ++ post :=
    splitLines_joinLines _ hcontent1ne hcontent1nn
  -- the revert search finds exactly the spliced lines
  have hrun : findRunFrom (splitLines (joinLines (pre ++ localLines ++
      post))) (splitLines (joinLines localLines)) 0 = some pre.length := by
    rw [hsplit1, hrepl_split]
    apply (findRunFrom_eq_some_iff _ _ 0 pre.length).2
    refine ⟨Nat.zero_le _, ?_, matchesAt_exact pre localLines post, ?_⟩
    · simp only [List.length_append]
      omega
    · intro j hj0 hj
      exact hfirst j hj
  have hc1 : (acceptLocal (singleConflictState pre localLines remoteLines
      post openLine closeLine) 0).conflicts =
      [{ singleConflictRegion pre localLines remoteLines with
        resolved := true }] := by
    show (acceptConflict (singleConflictState pre localLines remoteLines
      post openLine closeLine) 0
      (fun conflict => conflict.localContent)).conflicts = _
    rw [haccept]
    rfl
  have hrr1 : (acceptLocal (singleConflictState pre localLines remoteLines
      post openLine closeLine) 0).resolvedReplacements =
      [(0, joinLines localLines)] := by
    show (acceptConflict (singleConflictState pre localLines remoteLines
      post openLine closeLine) 0
      (fun conflict => conflict.localContent)).resolvedReplacements = _
    rw [haccept]
    rfl
  have hrevert := revertConflict_fires (acceptLocal (singleConflictState
    pre localLines remoteLines post openLine closeLine) 0) 0
    (joinLines (pre ++ localLines ++ post))
    ({ singleConflictRegion pre localLines remoteLines with
      resolved := true })
    (joinLines localLines) pre.length hm1 hmc1ne hfind1 rfl hrget hrun
  -- the final content
  have htake1 : (pre ++ localLines ++ post).take pre.length = pre := by
    rw [List.append_assoc]
    exact List.take_left pre _
  have hdrop1 : (pre ++ localLines ++ post).drop (pre.length +
      localLines.length) = post := by
    rw [show pre.length + localLines.length = (pre ++ localLines).length
      from by simp]
    exact List.drop_left _ _
  have hmarker : splitLines (revertMarkerText { singleConflictRegion pre
      localLines remoteLines with resolved := true }) =
      "<<<<<<< LOCAL" :: (localLines ++ ("=======" :: (remoteLines ++
        [">>>>>>> REMOTE"]))) := by
    rw [splitLines_revertMarkerText]
    rw [show ({ singleConflictRegion pre localLines remoteLines with
      resolved := true } : ConflictRegion).localContent =
      joinLines localLines from rfl]
    rw [show ({ singleConflictRegion pre localLines remoteLines with
      resolved := true } : ConflictRegion).remoteContent =
      joinLines remoteLines from rfl]
    rw [hrepl_split, hremote_split]
  refine ⟨?_, ?_, ?_⟩
  · rw [hrevert]
    dsimp only at hmarker ⊢
    rw [hsplit1, hrepl_split, htake1, hmarker, hdrop1]
    congr 2
    simp [List.append_assoc]
  · rw [hrevert]
    dsimp only
    rw [hc1]
    rfl
  · rw [hrevert]
    dsimp only
    rw [hrr1]
    rfl

/-- **C1, counterexample.**  The round-trip claim fails for a document with
two conflict regions: `twoConflictDoc` parses into 2 regions with
non-overlapping line ranges, yet performing `acceptLocal` on both ids in
ascending order and then `revertConflict` on both ids does not restore the
original document even after normalising the marker display labels away.
The first accept renumbers the remaining lines but the stale stored
`startLine`/`endLine` of region 1 are reused by the second accept, which
splices the wrong line range. -/
theorem C1_counterexample :
    (parseConflicts twoConflictDoc).toOption.map (fun r =>
      r.totalConflicts) = some 2 ∧
    twoConflictState.conflicts.map (fun c => (c.startLine, c.endLine)) =
      [(1, 5), (7, 11)] ∧
    (revertConflict (revertConflict (acceptLocal (acceptLocal
        twoConflictState 0) 1) 0) 1).mergedContent.map stripMarkerLabels ≠
      some (stripMarkerLabels twoConflictDoc) := by
  refine ⟨rfl, rfl, ?_⟩
  decide

/-- Witness for C1 (amended): the Scenario A instance.  `acceptLocal` then
`revertConflict` on the single region of
`"a\n<<<<<<< LOCAL\nX\n=======\nY\n>>>>>>> REMOTE\nb\n"` restores exactly
`scenarioADoc`. -/
theorem C1_amended_witness :
    (revertConflict (acceptLocal (singleConflictState ["a"] ["X"] ["Y"]
      ["b", ""] "<<<<<<< LOCAL" ">>>>>>> REMOTE") 0) 0).mergedContent =
      some scenarioADoc := by
  have h := C1_roundtrip_single ["a"] ["X"] ["Y"] ["b", ""]
    "<<<<<<< LOCAL" ">>>>>>> REMOTE" (by decide) (by decide) (by decide)
    (by decide) (by decide) (by decide) (by decide) (by decide) (by decide)
    (by decide)
  rw [h.1]
  rfl

end MergeEngine
